import Mathlib

/-!
Verification development for the client-side protocol engine of
zph/session-manager-plugin.

The repository's checkout contains the CLI entry point
`src/ssm-port-forward-main/main.go` in full, together with the test files of
the core packages (`datachannel`, `message`, `portsession`, `shellsession`).
The core implementation files themselves (channel engine, message codec,
port-session variants) are not present in the checkout, so those components
are modelled from the specification (spec.md §3, §4.1-§4.4, §7); each such
definition carries a doc comment starting with `Modelled from the spec:`.
Definitions for the CLI (argument parsing, document-name selection, session
parameters) are translated directly from `main.go`.

Conventions: byte strings are `List Nat` (each element morally `< 256`);
sequence numbers are `Int` (the wire format uses a signed 64-bit counter
starting at 0; no claim exercises overflow, so unbounded `Int` is used);
fallible operations return `Except`.
-/

/-! ## Channel Engine: inbound path (spec §4.2 `OnReceive`, stream-data case) -/

/-- Modelled from the spec: `IncomingBufferEntry` of spec §3 -
`{sequenceNumber, payload}`, held until it becomes the next expected
sequence number. -/
structure IncomingEntry where
  sequenceNumber : Int
  payload : List Nat
deriving Repr, DecidableEq

/-- Modelled from the spec: the inbound-side state of the Channel Engine
(spec §4.2): the `expectedSequenceNumber` counter (init 0), the incoming
reorder buffer, plus observable histories - the payloads handed to the
registered local consumer in order (`delivered`) and the sequence numbers of
the acknowledgement envelopes emitted (`acksSent`). -/
structure ChannelInState where
  expectedSequenceNumber : Int
  incomingBuffer : List IncomingEntry
  delivered : List (List Nat)
  acksSent : List Int
deriving Repr, DecidableEq

/-- Modelled from the spec: the fatal error taxonomy entry relevant to the
inbound path - `SequenceGapOverflow` (spec §7): the incoming buffer would
exceed its capacity bound; the session terminates. -/
inductive ChannelError where
  | sequenceGapOverflow
deriving Repr, DecidableEq

/-- Look up the payload stored in the incoming buffer under a sequence
number. -/
def bufLookup (buf : List IncomingEntry) (s : Int) : Option (List Nat) :=
  match buf with
  | [] => none
  | entry :: rest => if entry.sequenceNumber = s then some entry.payload else bufLookup rest s

/-- Remove every entry with the given sequence number from the incoming
buffer. -/
def bufRemove (buf : List IncomingEntry) (s : Int) : List IncomingEntry :=
  buf.filter (fun entry => entry.sequenceNumber ≠ s)

/-- Modelled from the spec: the drain loop of spec §4.2 - "repeatedly drain
the incoming buffer while the next expected entry is present, delivering
each". Written with explicit fuel (the caller passes the buffer length,
which bounds the number of drainable entries); each successful step delivers
the entry, removes it from the buffer and increments the counter. -/
def drainIncoming : Nat → ChannelInState → ChannelInState
  | 0, st => st
  | Nat.succ fuel, st =>
    match bufLookup st.incomingBuffer st.expectedSequenceNumber with
    | none => st
    | some p =>
      drainIncoming fuel
        { expectedSequenceNumber := st.expectedSequenceNumber + 1
          incomingBuffer := bufRemove st.incomingBuffer st.expectedSequenceNumber
          delivered := st.delivered ++ [p]
          acksSent := st.acksSent }

/-- Modelled from the spec: the stream-data dispatch of `OnReceive`
(spec §4.2). If `SequenceNumber == expectedSequenceNumber`, deliver the
payload immediately, increment the counter, then drain the buffer. If
`SequenceNumber > expectedSequenceNumber`, store the envelope in the bounded
incoming buffer (an envelope whose sequence number is already buffered is
not stored twice - the spec makes `SequenceNumber` the envelope's identity
for deduplication); beyond the bound the session fails fatally with
`SequenceGapOverflow`. If `SequenceNumber < expectedSequenceNumber`, the
envelope is a duplicate: the payload is discarded. Every accepted envelope,
duplicate or fresh, appends one acknowledgement echoing its sequence
number. The capacity bound `cap` is a model parameter: the spec leaves the
concrete capacity implicit (spec §9, open question). -/
def onStreamData (cap : Nat) (st : ChannelInState) (s : Int) (p : List Nat) :
    Except ChannelError ChannelInState :=
  if s = st.expectedSequenceNumber then
    Except.ok (drainIncoming st.incomingBuffer.length
      { expectedSequenceNumber := st.expectedSequenceNumber + 1
        incomingBuffer := st.incomingBuffer
        delivered := st.delivered ++ [p]
        acksSent := st.acksSent ++ [s] })
  else if st.expectedSequenceNumber < s then
    match bufLookup st.incomingBuffer s with
    | some _ => Except.ok { st with acksSent := st.acksSent ++ [s] }
    | none =>
      if st.incomingBuffer.length < cap then
        Except.ok { st with
          incomingBuffer := st.incomingBuffer ++ [⟨s, p⟩]
          acksSent := st.acksSent ++ [s] }
      else
        Except.error ChannelError.sequenceGapOverflow
  else
    Except.ok { st with acksSent := st.acksSent ++ [s] }

/-- Process a list of inbound stream-data envelopes (sequence number and
payload pairs) in arrival order, stopping at the first fatal error. -/
def processStreamData (cap : Nat) (st : ChannelInState) :
    List (Int × List Nat) → Except ChannelError ChannelInState
  | [] => Except.ok st
  | (s, p) :: rest =>
    match onStreamData cap st s p with
    | Except.ok st1 => processStreamData cap st1 rest
    | Except.error e => Except.error e

/-- The Channel Engine's initial inbound state: counter 0, empty buffer, no
deliveries, no acknowledgements (spec §4.2). -/
def chanInStart : ChannelInState := ⟨0, [], [], []⟩

/-- The inbound envelope set carrying sequence numbers `0..n-1` with payload
`ps i` on sequence number `i` - the logical (in-order) stream against which
arrival permutations are compared. -/
def seqPayloads (ps : Nat → List Nat) (n : Nat) : List (Int × List Nat) :=
  (List.range n).map (fun i => (Int.ofNat i, ps i))

example :
    processStreamData 3 chanInStart [(2, [2]), (0, [0]), (1, [1])] =
      Except.ok ⟨3, [], [[0], [1], [2]], [2, 0, 1]⟩ := by rfl

example :
    processStreamData 3 chanInStart [(0, [0]), (0, [0])] =
      Except.ok ⟨1, [], [[0]], [0, 0]⟩ := by rfl

example :
    processStreamData 1 chanInStart [(1, [1]), (2, [2])] =
      Except.error ChannelError.sequenceGapOverflow := by rfl

/-! ### Incoming-buffer helper lemmas -/

lemma bufLookup_ne_none_iff (buf : List IncomingEntry) (s : Int) :
    bufLookup buf s ≠ none ↔ ∃ entry ∈ buf, entry.sequenceNumber = s := by
  induction buf with
  | nil => simp [bufLookup]
  | cons entry rest ih =>
    by_cases h : entry.sequenceNumber = s
    · simp [bufLookup, h]
    · simp only [bufLookup, if_neg h, List.mem_cons]
      rw [ih]
      constructor
      · rintro ⟨e2, he2, hs⟩
        exact ⟨e2, Or.inr he2, hs⟩
      · rintro ⟨e2, (rfl | he2), hs⟩
        · exact absurd hs h
        · exact ⟨e2, he2, hs⟩

lemma bufLookup_some_mem {buf : List IncomingEntry} {s : Int} {p : List Nat}
    (h : bufLookup buf s = some p) :
    ∃ entry ∈ buf, entry.sequenceNumber = s ∧ entry.payload = p := by
  induction buf with
  | nil => simp [bufLookup] at h
  | cons entry rest ih =>
    by_cases hs : entry.sequenceNumber = s
    · simp only [bufLookup, if_pos hs, Option.some.injEq] at h
      exact ⟨entry, List.mem_cons_self entry rest, hs, h⟩
    · simp only [bufLookup, if_neg hs] at h
      obtain ⟨e2, he2, h1, h2⟩ := ih h
      exact ⟨e2, List.mem_cons_of_mem _ he2, h1, h2⟩

lemma mem_bufRemove_iff {buf : List IncomingEntry} {s : Int} {entry : IncomingEntry} :
    entry ∈ bufRemove buf s ↔ entry ∈ buf ∧ entry.sequenceNumber ≠ s := by
  simp [bufRemove, List.mem_filter]

lemma bufRemove_length_le (buf : List IncomingEntry) (s : Int) :
    (bufRemove buf s).length ≤ buf.length :=
  List.length_filter_le _ _

lemma bufRemove_length_lt {buf : List IncomingEntry} {s : Int}
    (h : ∃ entry ∈ buf, entry.sequenceNumber = s) :
    (bufRemove buf s).length < buf.length := by
  obtain ⟨entry, hmem, hs⟩ := h
  apply List.length_filter_lt_length_iff_exists.mpr
  exact ⟨entry, hmem, by simp [hs]⟩

lemma bufRemove_sublist (buf : List IncomingEntry) (s : Int) :
    (bufRemove buf s).Sublist buf :=
  List.filter_sublist buf

lemma bufRemove_nodup {buf : List IncomingEntry} (s : Int)
    (h : (buf.map IncomingEntry.sequenceNumber).Nodup) :
    ((bufRemove buf s).map IncomingEntry.sequenceNumber).Nodup :=
  List.Nodup.sublist (List.Sublist.map _ (bufRemove_sublist buf s)) h

lemma bufLookup_append_fresh {buf : List IncomingEntry} {s : Int} (p : List Nat)
    (h : bufLookup buf s = none) :
    bufLookup (buf ++ [⟨s, p⟩]) s = some p := by
  induction buf with
  | nil => simp [bufLookup]
  | cons entry rest ih =>
    by_cases hs : entry.sequenceNumber = s
    · simp [bufLookup, if_pos hs] at h
    · simp only [bufLookup, if_neg hs] at h ⊢
      exact ih h

lemma bufLookup_append_of_ne_none {buf : List IncomingEntry} {s : Int}
    (xs : List IncomingEntry) (h : bufLookup buf s ≠ none) :
    bufLookup (buf ++ xs) s = bufLookup buf s := by
  induction buf with
  | nil => simp [bufLookup] at h
  | cons entry rest ih =>
    by_cases hs : entry.sequenceNumber = s
    · simp [bufLookup, if_pos hs]
    · simp only [bufLookup, if_neg hs] at h ⊢
      exact ih h

/-! ### The reorder invariant -/

/-- Well-formedness of the incoming buffer relative to the logical stream
`ps` of length `n` and a lower bound `e` on buffered sequence numbers: every
entry holds the payload of its sequence number, sequence numbers lie in
`[e, n)`, and no sequence number repeats. -/
def BufGe (ps : Nat → List Nat) (n e : Nat) (buf : List IncomingEntry) : Prop :=
  (∀ entry ∈ buf, ∃ k : Nat,
      entry.sequenceNumber = (k : Int) ∧ e ≤ k ∧ k < n ∧ entry.payload = ps k) ∧
  (buf.map IncomingEntry.sequenceNumber).Nodup

/-- Strict variant of `BufGe`: buffered sequence numbers are strictly above
the expected counter, which is what holds between calls to `OnReceive`. -/
def BufGt (ps : Nat → List Nat) (n e : Nat) (buf : List IncomingEntry) : Prop :=
  (∀ entry ∈ buf, ∃ k : Nat,
      entry.sequenceNumber = (k : Int) ∧ e < k ∧ k < n ∧ entry.payload = ps k) ∧
  (buf.map IncomingEntry.sequenceNumber).Nodup

/-- The Channel Engine inbound invariant: the expected counter is some
`e ≤ n`, the consumer has received exactly the first `e` payloads of the
logical stream in order, and the reorder buffer is well formed with all
entries strictly beyond `e`. -/
def InWf (ps : Nat → List Nat) (n : Nat) (st : ChannelInState) : Prop :=
  ∃ e : Nat, st.expectedSequenceNumber = (e : Int) ∧ e ≤ n ∧
    st.delivered = (List.range e).map ps ∧ BufGt ps n e st.incomingBuffer

/-- Sequence number `k` has been seen by the engine: either already
delivered (below the expected counter) or parked in the reorder buffer. -/
def seenSeq (st : ChannelInState) (k : Nat) : Prop :=
  (k : Int) < st.expectedSequenceNumber ∨ bufLookup st.incomingBuffer (k : Int) ≠ none

lemma bufGe_of_bufGt {ps : Nat → List Nat} {n e : Nat} {buf : List IncomingEntry}
    (h : BufGt ps n e buf) : BufGe ps n (e + 1) buf := by
  refine ⟨fun entry hmem => ?_, h.2⟩
  obtain ⟨k, h1, h2, h3, h4⟩ := h.1 entry hmem
  exact ⟨k, h1, h2, h3, h4⟩

/-- Sequence numbers of a well-formed buffer with lower bound `e` and upper
bound `n` are distinct integers in the open-closed range, so the buffer
length is below `n` whenever `e < n`. -/
lemma bufGt_length_lt {ps : Nat → List Nat} {n e : Nat} {buf : List IncomingEntry}
    (h : BufGt ps n e buf) : buf.length ≤ (n - e - 1 : Int).toNat := by
  have hlen : buf.length = (buf.map IncomingEntry.sequenceNumber).length := by
    simp
  have hnodup := h.2
  have hsub : (buf.map IncomingEntry.sequenceNumber).toFinset ⊆
      Finset.Ioo (e : Int) (n : Int) := by
    intro x hx
    rw [List.mem_toFinset, List.mem_map] at hx
    obtain ⟨entry, hmem, hxeq⟩ := hx
    obtain ⟨k, h1, h2, h3, _⟩ := h.1 entry hmem
    rw [Finset.mem_Ioo, ← hxeq, h1]
    constructor
    · exact_mod_cast h2
    · exact_mod_cast h3
  have hcard : (buf.map IncomingEntry.sequenceNumber).toFinset.card =
      (buf.map IncomingEntry.sequenceNumber).length :=
    List.toFinset_card_of_nodup hnodup
  have := Finset.card_le_card hsub
  rw [hcard] at this
  rw [hlen]
  simpa [Int.card_Ioo] using this

/-- Behaviour of the drain loop: starting from a state whose delivered
history matches the first `e` payloads and whose buffer is well formed with
lower bound `e`, draining delivers a contiguous run of buffered payloads in
order, reaching some counter `e2 ≥ e`, preserving the acknowledgement
history and the set of seen sequence numbers, and - when the fuel covers the
buffer length - leaving no buffered entry at the new expected number. -/
lemma drainIncoming_spec (ps : Nat → List Nat) (n : Nat) :
    ∀ (fuel : Nat) (st : ChannelInState) (e : Nat),
      st.expectedSequenceNumber = (e : Int) → e ≤ n →
      st.delivered = (List.range e).map ps →
      BufGe ps n e st.incomingBuffer →
      ∃ e2 : Nat, e ≤ e2 ∧ e2 ≤ n ∧
        (drainIncoming fuel st).expectedSequenceNumber = (e2 : Int) ∧
        (drainIncoming fuel st).delivered = (List.range e2).map ps ∧
        BufGe ps n e2 (drainIncoming fuel st).incomingBuffer ∧
        (drainIncoming fuel st).acksSent = st.acksSent ∧
        (∀ k : Nat, seenSeq (drainIncoming fuel st) k ↔ seenSeq st k) ∧
        (drainIncoming fuel st).incomingBuffer.length ≤ st.incomingBuffer.length ∧
        (st.incomingBuffer.length ≤ fuel →
          bufLookup (drainIncoming fuel st).incomingBuffer (e2 : Int) = none) := by
  intro fuel
  induction fuel with
  | zero =>
    intro st e hexp hen hdel hbuf
    refine ⟨e, le_refl e, hen, hexp, hdel, hbuf, rfl, fun k => Iff.rfl, le_refl _, ?_⟩
    intro hlen
    have : st.incomingBuffer = [] := List.eq_nil_of_length_eq_zero (Nat.le_zero.mp hlen)
    simp [drainIncoming, this, bufLookup]
  | succ fuel ih =>
    intro st e hexp hen hdel hbuf
    rcases hl : bufLookup st.incomingBuffer st.expectedSequenceNumber with _ | p
    · have hstep : drainIncoming (fuel + 1) st = st := by
        simp only [drainIncoming, hl]
      have hl2 : bufLookup st.incomingBuffer (e : Int) = none := by
        rw [← hexp]; exact hl
      refine ⟨e, le_refl e, hen, ?_, ?_, ?_, ?_, ?_, ?_, ?_⟩
      · rw [hstep]; exact hexp
      · rw [hstep]; exact hdel
      · rw [hstep]; exact hbuf
      · rw [hstep]
      · rw [hstep]; exact fun k => Iff.rfl
      · rw [hstep]
      · rw [hstep]; exact fun _ => hl2
    · set st2 : ChannelInState :=
        { expectedSequenceNumber := st.expectedSequenceNumber + 1
          incomingBuffer := bufRemove st.incomingBuffer st.expectedSequenceNumber
          delivered := st.delivered ++ [p]
          acksSent := st.acksSent } with hst2
      have hstep : drainIncoming (fuel + 1) st = drainIncoming fuel st2 := by
        simp only [drainIncoming, hl]
      have hl2 : bufLookup st.incomingBuffer (e : Int) = some p := by
        rw [← hexp]; exact hl
      obtain ⟨entry, hmem, hseq, hpay⟩ := bufLookup_some_mem hl2
      obtain ⟨k0, hk0seq, hk0ge, hk0lt, hk0pay⟩ := hbuf.1 entry hmem
      have hk0e : k0 = e := by
        have : (k0 : Int) = (e : Int) := by rw [← hk0seq, hseq]
        exact_mod_cast this
      have hpe : p = ps e := by rw [← hpay, hk0pay, hk0e]
      have hen2 : e + 1 ≤ n := by omega
      have hexp2 : st2.expectedSequenceNumber = ((e + 1 : Nat) : Int) := by
        rw [hst2]; show st.expectedSequenceNumber + 1 = ((e + 1 : Nat) : Int)
        rw [hexp]; push_cast; ring
      have hdel2 : st2.delivered = (List.range (e + 1)).map ps := by
        rw [hst2]; show st.delivered ++ [p] = _
        rw [hdel, hpe, List.range_succ, List.map_append, List.map_singleton]
      have hbuf2 : BufGe ps n (e + 1) st2.incomingBuffer := by
        constructor
        · intro entry2 hmem2
          rw [hst2] at hmem2
          have hmem2' := mem_bufRemove_iff.mp hmem2
          obtain ⟨k, h1, h2, h3, h4⟩ := hbuf.1 entry2 hmem2'.1
          have hkne : k ≠ e := by
            intro hke
            apply hmem2'.2
            rw [h1, hke, hexp]
          exact ⟨k, h1, by omega, h3, h4⟩
        · rw [hst2]
          exact bufRemove_nodup _ hbuf.2
      obtain ⟨e2, he2ge, he2le, hres1, hres2, hres3, hres4, hres5, hres6, hres7⟩ :=
        ih st2 (e + 1) hexp2 hen2 hdel2 hbuf2
      have hseen : ∀ k : Nat, seenSeq st2 k ↔ seenSeq st k := by
        intro k
        constructor
        · intro hs
          rcases hs with hlt | hne
          · by_cases hck : (k : Int) < st.expectedSequenceNumber
            · exact Or.inl hck
            · have hke : (k : Int) = st.expectedSequenceNumber := by
                have : (k : Int) < st.expectedSequenceNumber + 1 := hlt
                omega
              refine Or.inr ?_
              rw [hke, ← hexp] at *
              rw [hexp, ← hke]
              intro hc
              rw [hke, hl] at hc
              exact Option.noConfusion hc
          · obtain ⟨entry2, hmem2, hseq2⟩ := (bufLookup_ne_none_iff _ _).mp hne
            have : entry2 ∈ st.incomingBuffer := (mem_bufRemove_iff.mp hmem2).1
            exact Or.inr ((bufLookup_ne_none_iff _ _).mpr ⟨entry2, this, hseq2⟩)
        · intro hs
          rcases hs with hlt | hne
          · exact Or.inl (by show (k : Int) < st.expectedSequenceNumber + 1; omega)
          · obtain ⟨entry2, hmem2, hseq2⟩ := (bufLookup_ne_none_iff _ _).mp hne
            by_cases hke : (k : Int) = st.expectedSequenceNumber
            · exact Or.inl (by show (k : Int) < st.expectedSequenceNumber + 1; omega)
            · refine Or.inr ((bufLookup_ne_none_iff _ _).mpr ⟨entry2, ?_, hseq2⟩)
              exact mem_bufRemove_iff.mpr ⟨hmem2, by rw [hseq2]; exact hke⟩
      have hseqexp : entry.sequenceNumber = st.expectedSequenceNumber := by
        rw [hseq, hexp]
      refine ⟨e2, by omega, he2le, ?_, ?_, ?_, ?_, ?_, ?_, ?_⟩ <;> rw [hstep]
      · exact hres1
      · exact hres2
      · exact hres3
      · rw [hres4]
      · exact fun k => (hres5 k).trans (hseen k)
      · calc (drainIncoming fuel st2).incomingBuffer.length
            ≤ st2.incomingBuffer.length := hres6
          _ ≤ st.incomingBuffer.length := bufRemove_length_le _ _
      · intro hlenfuel
        apply hres7
        have hlt : st2.incomingBuffer.length < st.incomingBuffer.length :=
          bufRemove_length_lt ⟨entry, hmem, hseqexp⟩
        omega

/-- Effect of one `OnReceive` stream-data dispatch on a well-formed state,
for an envelope of the logical stream (`sequenceNumber k < n`, payload
`ps k`) when the capacity covers the stream length: the call succeeds,
preserves the invariant, appends exactly one acknowledgement echoing the
envelope's sequence number, marks `k` as seen, keeps previously seen
sequence numbers seen, and never decreases the expected counter. -/
lemma onStreamData_step {ps : Nat → List Nat} {n cap : Nat} {st : ChannelInState}
    (k : Nat) (hk : k < n) (hcap : n ≤ cap) (hwf : InWf ps n st) :
    ∃ st2, onStreamData cap st (k : Int) (ps k) = Except.ok st2 ∧
      InWf ps n st2 ∧
      st2.acksSent = st.acksSent ++ [(k : Int)] ∧
      seenSeq st2 k ∧
      (∀ j : Nat, seenSeq st j → seenSeq st2 j) ∧
      st.expectedSequenceNumber ≤ st2.expectedSequenceNumber := by
  obtain ⟨e, hexp, hen, hdel, hbuf⟩ := hwf
  by_cases hke : (k : Int) = st.expectedSequenceNumber
  · have hkee : k = e := by
      have : (k : Int) = (e : Int) := by rw [hke, hexp]
      exact_mod_cast this
    have hlen : e < n := hkee ▸ hk
    simp only [onStreamData, if_pos hke]
    obtain ⟨e2, he2ge, he2le, hres1, hres2, hres3, hres4, hres5, hres6, hres7⟩ :=
      drainIncoming_spec ps n st.incomingBuffer.length
        { expectedSequenceNumber := st.expectedSequenceNumber + 1
          incomingBuffer := st.incomingBuffer
          delivered := st.delivered ++ [ps k]
          acksSent := st.acksSent ++ [(k : Int)] }
        (e + 1)
        (by show st.expectedSequenceNumber + 1 = ((e + 1 : Nat) : Int)
            rw [hexp]; push_cast; ring)
        (by omega)
        (by show st.delivered ++ [ps k] = _
            rw [hdel, hkee, List.range_succ, List.map_append, List.map_singleton])
        (bufGe_of_bufGt hbuf)
    have hdrained := hres7 (le_refl _)
    refine ⟨_, rfl, ⟨e2, hres1, he2le, hres2, ?_, ?_⟩, hres4, ?_, ?_, ?_⟩
    · intro entry hmem
      obtain ⟨k2, h1, h2, h3, h4⟩ := hres3.1 entry hmem
      have hne : k2 ≠ e2 := by
        intro hc
        apply (bufLookup_ne_none_iff _ _).mpr ⟨entry, hmem, by rw [h1, hc]⟩
        exact hdrained
      exact ⟨k2, h1, by omega, h3, h4⟩
    · exact hres3.2
    · refine Or.inl ?_
      rw [hres1, hke, hexp]
      have : e < e2 := by omega
      exact_mod_cast this
    · intro j hj
      rcases hj with hlt | hne
      · refine (hres5 j).mpr (Or.inl ?_)
        show (j : Int) < st.expectedSequenceNumber + 1
        omega
      · exact (hres5 j).mpr (Or.inr hne)
    · rw [hres1, hexp]
      have : e ≤ e2 := by omega
      exact_mod_cast this
  · by_cases hgt : st.expectedSequenceNumber < (k : Int)
    · rcases hlk : bufLookup st.incomingBuffer (k : Int) with _ | p0
      · have hek : e < k := by
          rw [hexp] at hgt
          exact_mod_cast hgt
        have hlencap : st.incomingBuffer.length < cap := by
          have := bufGt_length_lt hbuf
          omega
        simp only [onStreamData, if_neg hke, if_pos hgt, hlk, if_pos hlencap]
        refine ⟨_, rfl, ⟨e, hexp, hen, hdel, ?_, ?_⟩, rfl, ?_, ?_, le_refl _⟩
        · intro entry hmem
          rcases List.mem_append.mp hmem with hold | hnew
          · exact hbuf.1 entry hold
          · rw [List.mem_singleton] at hnew
            subst hnew
            exact ⟨k, rfl, hek, hk, rfl⟩
        · rw [List.map_append, List.map_singleton]
          rw [List.nodup_append]
          refine ⟨hbuf.2, List.nodup_singleton _, ?_⟩
          intro x hx hx2
          rw [List.mem_singleton] at hx2
          subst hx2
          rw [List.mem_map] at hx
          obtain ⟨entry, hmem, hseq⟩ := hx
          apply (bufLookup_ne_none_iff _ _).mpr ⟨entry, hmem, hseq⟩
          exact hlk
        · exact Or.inr (by rw [bufLookup_append_fresh (ps k) hlk]; simp)
        · intro j hj
          rcases hj with hlt | hne
          · exact Or.inl hlt
          · exact Or.inr (by rw [bufLookup_append_of_ne_none _ hne]; exact hne)
      · simp only [onStreamData, if_neg hke, if_pos hgt, hlk]
        refine ⟨_, rfl, ⟨e, hexp, hen, hdel, hbuf⟩, rfl, ?_, ?_, le_refl _⟩
        · exact Or.inr (by rw [hlk]; simp)
        · exact fun j hj => hj
    · have hlt : (k : Int) < st.expectedSequenceNumber := by
        rcases lt_trichotomy ((k : Int)) st.expectedSequenceNumber with h | h | h
        · exact h
        · exact absurd h hke
        · exact absurd h hgt
      simp only [onStreamData, if_neg hke, if_neg hgt]
      refine ⟨_, rfl, ⟨e, hexp, hen, hdel, hbuf⟩, rfl, Or.inl hlt, fun j hj => hj, le_refl _⟩

/-- Length of the incoming buffer never grows across the drain loop. -/
lemma drainIncoming_length_le :
    ∀ (fuel : Nat) (st : ChannelInState),
      (drainIncoming fuel st).incomingBuffer.length ≤ st.incomingBuffer.length := by
  intro fuel
  induction fuel with
  | zero => intro st; exact le_refl _
  | succ fuel ih =>
    intro st
    rcases hl : bufLookup st.incomingBuffer st.expectedSequenceNumber with _ | p
    · simp only [drainIncoming, hl]
      exact le_refl _
    · have hstep : drainIncoming (fuel + 1) st = drainIncoming fuel
        { expectedSequenceNumber := st.expectedSequenceNumber + 1
          incomingBuffer := bufRemove st.incomingBuffer st.expectedSequenceNumber
          delivered := st.delivered ++ [p]
          acksSent := st.acksSent } := by
        simp only [drainIncoming, hl]
      rw [hstep]
      calc (drainIncoming fuel _).incomingBuffer.length
          ≤ (bufRemove st.incomingBuffer st.expectedSequenceNumber).length := ih _
        _ ≤ st.incomingBuffer.length := bufRemove_length_le _ _

/-- Running a batch of well-formed inbound stream-data envelopes: the run
succeeds, preserves the invariant, emits exactly one acknowledgement per
envelope (in arrival order, echoing each sequence number), keeps previously
seen sequence numbers seen and marks every arrived sequence number seen. -/
lemma processStreamData_run {ps : Nat → List Nat} {n cap : Nat} (hcap : n ≤ cap) :
    ∀ (msgs : List (Int × List Nat)) (st : ChannelInState),
      (∀ m ∈ msgs, ∃ k : Nat, k < n ∧ m.1 = (k : Int) ∧ m.2 = ps k) →
      InWf ps n st →
      ∃ st2, processStreamData cap st msgs = Except.ok st2 ∧ InWf ps n st2 ∧
        st2.acksSent = st.acksSent ++ msgs.map Prod.fst ∧
        (∀ j : Nat, seenSeq st j → seenSeq st2 j) ∧
        (∀ m ∈ msgs, ∀ k : Nat, m.1 = (k : Int) → seenSeq st2 k) := by
  intro msgs
  induction msgs with
  | nil =>
    intro st _ hwf
    exact ⟨st, rfl, hwf, by simp, fun j hj => hj, by simp⟩
  | cons m rest ih =>
    intro st hmsgs hwf
    obtain ⟨s, p⟩ := m
    obtain ⟨k, hk, hs, hp⟩ := hmsgs (s, p) (List.mem_cons_self _ _)
    simp only at hs hp
    subst hs hp
    obtain ⟨st1, hok, hwf1, hacks1, hseenk1, hpres1, _⟩ :=
      onStreamData_step k hk hcap hwf
    obtain ⟨st2, hrun, hwf2, hacks2, hpres2, hseen2⟩ :=
      ih st1 (fun m hm => hmsgs m (List.mem_cons_of_mem _ hm)) hwf1
    refine ⟨st2, ?_, hwf2, ?_, ?_, ?_⟩
    · simp only [processStreamData, hok]
      exact hrun
    · rw [hacks2, hacks1]
      simp
    · exact fun j hj => hpres2 j (hpres1 j hj)
    · intro m hm k2 hk2
      rcases List.mem_cons.mp hm with hhead | htail
      · have : k2 = k := by
          have : (k2 : Int) = (k : Int) := by
            rw [← hk2, hhead]
          exact_mod_cast this
        subst this
        exact hpres2 k2 hseenk1
      · exact hseen2 m htail k2 hk2

/-- Completed run: when the arrived envelopes are exactly well-formed
members of the logical stream of length `n` and cover all of it (duplicates
allowed), the engine ends with counter `n`, an empty reorder buffer, the
whole stream delivered in order, and one acknowledgement per arrival. -/
lemma processStreamData_complete {ps : Nat → List Nat} {n cap : Nat}
    {msgs : List (Int × List Nat)} (hcap : n ≤ cap)
    (hmsgs : ∀ m ∈ msgs, ∃ k : Nat, k < n ∧ m.1 = (k : Int) ∧ m.2 = ps k)
    (hcov : ∀ k : Nat, k < n → ((k : Int), ps k) ∈ msgs) :
    ∃ st2, processStreamData cap chanInStart msgs = Except.ok st2 ∧
      st2.delivered = (List.range n).map ps ∧
      st2.expectedSequenceNumber = (n : Int) ∧
      st2.incomingBuffer = [] ∧
      st2.acksSent = msgs.map Prod.fst := by
  have hwf0 : InWf ps n chanInStart := by
    refine ⟨0, rfl, Nat.zero_le n, by simp [chanInStart], ?_, ?_⟩
    · intro entry hmem
      exact absurd hmem (List.not_mem_nil _)
    · exact List.nodup_nil
  obtain ⟨st2, hrun, hwf2, hacks2, _, hseen2⟩ :=
    processStreamData_run hcap msgs chanInStart hmsgs hwf0
  obtain ⟨e2, hexp2, he2le, hdel2, hbuf2⟩ := hwf2
  have hseenall : ∀ k : Nat, k < n → seenSeq st2 k := by
    intro k hk
    exact hseen2 ((k : Int), ps k) (hcov k hk) k rfl
  have he2n : e2 = n := by
    by_contra hne
    have he2lt : e2 < n := lt_of_le_of_ne he2le hne
    rcases hseenall e2 he2lt with hlt | hne2
    · rw [hexp2] at hlt
      exact absurd hlt (lt_irrefl _)
    · obtain ⟨entry, hmem, hseq⟩ := (bufLookup_ne_none_iff _ _).mp hne2
      obtain ⟨k2, h1, h2, _, _⟩ := hbuf2.1 entry hmem
      have : k2 = e2 := by
        have : (k2 : Int) = (e2 : Int) := by rw [← h1, hseq]
        exact_mod_cast this
      omega
  subst he2n
  have hempty : st2.incomingBuffer = [] := by
    rcases hbe : st2.incomingBuffer with _ | ⟨entry, rest⟩
    · rfl
    · obtain ⟨k2, _, h2, h3, _⟩ := hbuf2.1 entry (by rw [hbe]; exact List.mem_cons_self _ _)
      omega
  refine ⟨st2, hrun, hdel2, hexp2, hempty, ?_⟩
  rw [hacks2]
  simp [chanInStart]

/-- C1: for every logical stream of `n` payloads and every arrival
permutation of its envelopes (sequence numbers `0..n-1`, expected counter
starting at 0), the Channel Engine delivers the payloads to the registered
local consumer in strict ascending sequence order `0, 1, ..., n-1`: the run
succeeds, the delivered history equals the logical stream in order, the
counter ends at `n` and the reorder buffer is empty. The capacity bound is
assumed to cover the stream (`n ≤ cap`); the spec leaves the concrete bound
implicit. -/
theorem c1_reordered_arrivals_delivered_in_order
    (ps : Nat → List Nat) (n cap : Nat) (msgs : List (Int × List Nat))
    (hperm : msgs.Perm (seqPayloads ps n)) (hcap : n ≤ cap) :
    ∃ st, processStreamData cap chanInStart msgs = Except.ok st ∧
      st.delivered = (List.range n).map ps ∧
      st.expectedSequenceNumber = (n : Int) ∧
      st.incomingBuffer = [] := by
  have hmsgs : ∀ m ∈ msgs, ∃ k : Nat, k < n ∧ m.1 = (k : Int) ∧ m.2 = ps k := by
    intro m hm
    have : m ∈ seqPayloads ps n := hperm.subset hm
    rw [seqPayloads, List.mem_map] at this
    obtain ⟨i, hi, hmi⟩ := this
    rw [List.mem_range] at hi
    exact ⟨i, hi, by rw [← hmi]; exact rfl, by rw [← hmi]⟩
  have hcov : ∀ k : Nat, k < n → ((k : Int), ps k) ∈ msgs := by
    intro k hk
    apply hperm.symm.subset
    rw [seqPayloads, List.mem_map]
    exact ⟨k, List.mem_range.mpr hk, rfl⟩
  obtain ⟨st2, h1, h2, h3, h4, _⟩ := processStreamData_complete hcap hmsgs hcov
  exact ⟨st2, h1, h2, h3, h4⟩

/-- Witness for C1 at the spec's own example: arrival order
[seq 2, seq 0, seq 1] with expected start 0 is delivered as [0, 1, 2]. -/
theorem c1_reordered_arrivals_delivered_in_order_witness :
    ∃ st, processStreamData 3 chanInStart [(2, [2]), (0, [0]), (1, [1])] =
        Except.ok st ∧
      st.delivered = (List.range 3).map (fun i => [i]) ∧
      st.expectedSequenceNumber = (3 : Int) ∧
      st.incomingBuffer = [] :=
  c1_reordered_arrivals_delivered_in_order (fun i => [i]) 3 3
    [(2, [2]), (0, [0]), (1, [1])] (by decide) (by decide)

/-- C2: processing a duplicate envelope discards the payload but still
acknowledges it, and across any arrival list that covers the logical stream
with arbitrary duplication, each payload reaches the local consumer exactly
once while every inbound envelope, duplicate or fresh, yields exactly one
outbound acknowledgement echoing its sequence number. -/
theorem c2_duplicate_envelope_acked_delivered_once :
    (∀ (cap : Nat) (st : ChannelInState) (s : Int) (p : List Nat),
      s < st.expectedSequenceNumber →
      onStreamData cap st s p =
        Except.ok { st with acksSent := st.acksSent ++ [s] }) ∧
    (∀ (ps : Nat → List Nat) (n cap : Nat) (msgs : List (Int × List Nat)),
      (∀ m ∈ msgs, ∃ k : Nat, k < n ∧ m.1 = (k : Int) ∧ m.2 = ps k) →
      (∀ k : Nat, k < n → ((k : Int), ps k) ∈ msgs) →
      n ≤ cap →
      ∃ st, processStreamData cap chanInStart msgs = Except.ok st ∧
        st.delivered = (List.range n).map ps ∧
        st.acksSent = msgs.map Prod.fst) := by
  constructor
  · intro cap st s p hlt
    have hne : ¬s = st.expectedSequenceNumber := by omega
    have hngt : ¬st.expectedSequenceNumber < s := by omega
    simp only [onStreamData, if_neg hne, if_neg hngt]
  · intro ps n cap msgs hmsgs hcov hcap
    obtain ⟨st2, h1, h2, _, _, h5⟩ := processStreamData_complete hcap hmsgs hcov
    exact ⟨st2, h1, h2, h5⟩

/-- Witness for C2: a duplicate (seq 0 arriving when 1 is expected) is
discarded but acknowledged, and the arrival list [0, 0, 1] - the same raw
envelope 0 processed twice - delivers each payload exactly once while
emitting three acknowledgements. -/
theorem c2_duplicate_envelope_acked_delivered_once_witness :
    onStreamData 3 ⟨1, [], [[0]], [0]⟩ 0 [9] =
      Except.ok ⟨1, [], [[0]], [0, 0]⟩ ∧
    ∃ st, processStreamData 2 chanInStart [(0, [0]), (0, [0]), (1, [1])] =
        Except.ok st ∧
      st.delivered = (List.range 2).map (fun i => [i]) ∧
      st.acksSent = [0, 0, 1] := by
  constructor
  · exact
      c2_duplicate_envelope_acked_delivered_once.1 3 ⟨1, [], [[0]], [0]⟩ 0 [9]
        (by decide)
  · exact
      c2_duplicate_envelope_acked_delivered_once.2 (fun i => [i]) 2 2
        [(0, [0]), (0, [0]), (1, [1])]
        (by
          intro m hm
          simp only [List.mem_cons, List.not_mem_nil, or_false] at hm
          rcases hm with rfl | rfl | rfl
          · exact ⟨0, by decide, rfl, rfl⟩
          · exact ⟨0, by decide, rfl, rfl⟩
          · exact ⟨1, by decide, rfl, rfl⟩)
        (by
          intro k hk
          interval_cases k
          · decide
          · decide)
        (by decide)

/-- C6: the incoming reorder buffer never exceeds its capacity bound. A
fresh out-of-order envelope is stored only while the bound is respected
(every successful dispatch preserves `length ≤ cap`, for single envelopes
and whole runs), and an envelope that would exceed the bound is not
stored - the dispatch instead fails with the fatal `SequenceGapOverflow`
error reported to the caller. -/
theorem c6_incoming_buffer_capacity_bound :
    (∀ (cap : Nat) (st : ChannelInState) (s : Int) (p : List Nat) st2,
      st.incomingBuffer.length ≤ cap →
      onStreamData cap st s p = Except.ok st2 →
      st2.incomingBuffer.length ≤ cap) ∧
    (∀ (cap : Nat) (st : ChannelInState) (s : Int) (p : List Nat),
      st.expectedSequenceNumber < s →
      bufLookup st.incomingBuffer s = none →
      cap ≤ st.incomingBuffer.length →
      onStreamData cap st s p = Except.error ChannelError.sequenceGapOverflow) ∧
    (∀ (cap : Nat) (msgs : List (Int × List Nat)) (st : ChannelInState) st2,
      st.incomingBuffer.length ≤ cap →
      processStreamData cap st msgs = Except.ok st2 →
      st2.incomingBuffer.length ≤ cap) := by
  have hstep : ∀ (cap : Nat) (st : ChannelInState) (s : Int) (p : List Nat) st2,
      st.incomingBuffer.length ≤ cap →
      onStreamData cap st s p = Except.ok st2 →
      st2.incomingBuffer.length ≤ cap := by
    intro cap st s p st2 hle hok
    by_cases hke : s = st.expectedSequenceNumber
    · simp only [onStreamData, if_pos hke, Except.ok.injEq] at hok
      subst hok
      exact le_trans (drainIncoming_length_le _ _) hle
    · by_cases hgt : st.expectedSequenceNumber < s
      · rcases hlk : bufLookup st.incomingBuffer s with _ | p0
        · by_cases hlen : st.incomingBuffer.length < cap
          · simp only [onStreamData, if_neg hke, if_pos hgt, hlk, if_pos hlen,
              Except.ok.injEq] at hok
            subst hok
            simp only [List.length_append, List.length_singleton]
            omega
          · simp only [onStreamData, if_neg hke, if_pos hgt, hlk, if_neg hlen] at hok
            exact Except.noConfusion hok
        · simp only [onStreamData, if_neg hke, if_pos hgt, hlk, Except.ok.injEq] at hok
          subst hok
          exact hle
      · simp only [onStreamData, if_neg hke, if_neg hgt, Except.ok.injEq] at hok
        subst hok
        exact hle
  refine ⟨hstep, ?_, ?_⟩
  · intro cap st s p hgt hlk hge
    have hke : ¬s = st.expectedSequenceNumber := by omega
    have hlen : ¬st.incomingBuffer.length < cap := by omega
    simp only [onStreamData, if_neg hke, if_pos hgt, hlk, if_neg hlen]
  · intro cap msgs
    induction msgs with
    | nil =>
      intro st st2 hle hok
      simp only [processStreamData, Except.ok.injEq] at hok
      subst hok
      exact hle
    | cons m rest ih =>
      intro st st2 hle hok
      obtain ⟨s, p⟩ := m
      rcases h1 : onStreamData cap st s p with e | st1
      · rw [processStreamData, h1] at hok
        exact absurd hok (by simp)
      · rw [processStreamData, h1] at hok
        exact ih st1 st2 (hstep cap st s p st1 hle h1) hok

/-- Witness for C6: with capacity 1 and one entry already buffered, a fresh
out-of-order envelope triggers the fatal overflow, and a successful
in-order dispatch keeps the buffer within the bound. -/
theorem c6_incoming_buffer_capacity_bound_witness :
    onStreamData 1 ⟨0, [⟨1, [1]⟩], [], [1]⟩ 2 [2] =
      Except.error ChannelError.sequenceGapOverflow ∧
    (⟨2, [], [[0], [1]], [0]⟩ : ChannelInState).incomingBuffer.length ≤ 1 := by
  constructor
  · exact
      c6_incoming_buffer_capacity_bound.2.1 1 ⟨0, [⟨1, [1]⟩], [], [1]⟩ 2 [2]
        (by decide) (by decide) (by decide)
  · exact
      c6_incoming_buffer_capacity_bound.1 1 ⟨0, [⟨1, [1]⟩], [], []⟩ 0 [0]
        ⟨2, [], [[0], [1]], [0]⟩ (by decide) (by rfl)

/-! ## Message Codec (spec §3 Envelope, §4.1 Encode/Decode) -/

/-- Modelled from the spec: the wire envelope of spec §3. Field widths are
model constants consistent with the spec's types (type tag 32 bytes, schema
version uint32, timestamp 8 bytes, sequence number signed 64-bit, flags 8
bytes, message id 128-bit, digest 256-bit, payload type uint32, payload
length uint32). `PayloadDigest` and `PayloadLength` are computed during
encoding and so are not fields. -/
structure Envelope where
  messageType : Nat
  schemaVersion : Nat
  createdDate : Nat
  sequenceNumber : Int
  flags : Nat
  messageId : Nat
  payloadType : Nat
  payload : List Nat
deriving Repr, DecidableEq

/-- Big-endian encoding of a natural number into a fixed number of bytes
(truncating above `256 ^ width`). -/
def natToBytes : Nat → Nat → List Nat
  | 0, _ => []
  | w + 1, v => natToBytes w (v / 256) ++ [v % 256]

/-- Big-endian decoding of a byte list into a natural number. -/
def bytesToNat (bytes : List Nat) : Nat :=
  bytes.foldl (fun a b => a * 256 + b) 0

/-- Modelled from the spec: the payload digest. The spec requires a 256-bit
hash of the payload; the model uses the byte sum reduced mod `2 ^ 256`,
which has the property the spec relies on for corruption detection: any
single-byte change alters the digest. -/
def payloadDigest (p : List Nat) : Nat := p.sum % 2 ^ 256

/-- Header bytes before the digest: type tag (32), schema version (4),
timestamp (8), sequence number (8, two's complement), flags (8), message id
(16) - 76 bytes. -/
def encodePre (e : Envelope) : List Nat :=
  natToBytes 32 e.messageType ++ natToBytes 4 e.schemaVersion ++
  natToBytes 8 e.createdDate ++
  natToBytes 8 ((e.sequenceNumber % (2 : Int) ^ 64).toNat) ++
  natToBytes 8 e.flags ++ natToBytes 16 e.messageId

/-- Header bytes after the digest: payload type (4) and payload length
(4). -/
def encodePost (e : Envelope) : List Nat :=
  natToBytes 4 e.payloadType ++ natToBytes 4 e.payload.length

/-- Modelled from the spec: `Encode(Envelope) -> bytes` (spec §4.1) - a
fixed-width header at defined byte offsets (digest of the payload at offset
76) followed by the raw payload. -/
def Encode (e : Envelope) : List Nat :=
  encodePre e ++ natToBytes 32 (payloadDigest e.payload) ++
    encodePost e ++ e.payload

/-- The fixed header size: 76 + 32 + 8 bytes. -/
def headerSize : Nat := 116

/-- Read `w` bytes at offset `off` as a big-endian natural number. -/
def sliceNat (bytes : List Nat) (off w : Nat) : Nat :=
  bytesToNat ((bytes.drop off).take w)

/-- Modelled from the spec: the decode failure taxonomy of spec §4.1 - a
truncation error for inputs shorter than the header, a digest-mismatch
error when the computed payload hash differs from the stored digest. -/
inductive DecodeError where
  | truncated
  | digestMismatch
deriving Repr, DecidableEq

/-- Interpret an 8-byte big-endian value as a signed 64-bit integer. -/
def bytesToInt64 (u : Nat) : Int :=
  if u < 2 ^ 63 then (u : Int) else (u : Int) - 2 ^ 64

/-- Modelled from the spec: `Decode(bytes) -> Envelope` (spec §4.1): fails
with a truncation error if the input is shorter than the header size; fails
with a digest-mismatch error if the computed hash of the payload does not
equal the stored digest; otherwise reconstructs the envelope fields from
their offsets. Total - always returns a typed result. -/
def Decode (bytes : List Nat) : Except DecodeError Envelope :=
  if bytes.length < headerSize then Except.error DecodeError.truncated
  else
    if payloadDigest (bytes.drop headerSize) = sliceNat bytes 76 32 then
      Except.ok
        { messageType := sliceNat bytes 0 32
          schemaVersion := sliceNat bytes 32 4
          createdDate := sliceNat bytes 36 8
          sequenceNumber := bytesToInt64 (sliceNat bytes 44 8)
          flags := sliceNat bytes 52 8
          messageId := sliceNat bytes 60 16
          payloadType := sliceNat bytes 108 4
          payload := bytes.drop headerSize }
    else Except.error DecodeError.digestMismatch

lemma natToBytes_length : ∀ (w v : Nat), (natToBytes w v).length = w := by
  intro w
  induction w with
  | zero => intro v; rfl
  | succ w ih =>
    intro v
    simp [natToBytes, ih]

lemma bytesToNat_append_single (xs : List Nat) (b : Nat) :
    bytesToNat (xs ++ [b]) = bytesToNat xs * 256 + b := by
  simp [bytesToNat, List.foldl_append]

lemma bytesToNat_natToBytes : ∀ (w v : Nat),
    bytesToNat (natToBytes w v) = v % 256 ^ w := by
  intro w
  induction w with
  | zero => intro v; simp [natToBytes, bytesToNat, Nat.mod_one]
  | succ w ih =>
    intro v
    rw [natToBytes, bytesToNat_append_single, ih]
    rw [pow_succ, Nat.mul_comm (256 ^ w) 256, Nat.mod_mul]
    ring

lemma encodePre_length (e : Envelope) : (encodePre e).length = 76 := by
  simp [encodePre, natToBytes_length]

lemma encodePost_length (e : Envelope) : (encodePost e).length = 8 := by
  simp [encodePost, natToBytes_length]

lemma encode_length (e : Envelope) :
    (Encode e).length = headerSize + e.payload.length := by
  simp [Encode, encodePre_length, encodePost_length, natToBytes_length, headerSize]
  omega

lemma payloadDigest_lt (p : List Nat) : payloadDigest p < 2 ^ 256 :=
  Nat.mod_lt _ (by positivity)

lemma encode_assoc (e : Envelope) :
    Encode e =
      (encodePre e ++ natToBytes 32 (payloadDigest e.payload) ++ encodePost e) ++
        e.payload := by
  simp [Encode, List.append_assoc]

lemma encode_head_length (e : Envelope) :
    (encodePre e ++ natToBytes 32 (payloadDigest e.payload) ++ encodePost e).length =
      headerSize := by
  simp [encodePre_length, encodePost_length, natToBytes_length, headerSize]

/-- The digest stored in an encoded envelope (with any payload bytes `pl`
appended after the header) is read back exactly. -/
lemma sliceNat_digest (e : Envelope) (pl : List Nat) :
    sliceNat ((encodePre e ++ natToBytes 32 (payloadDigest e.payload) ++
        encodePost e) ++ pl) 76 32 = payloadDigest e.payload := by
  rw [sliceNat]
  rw [List.append_assoc (encodePre e), List.append_assoc (encodePre e)]
  rw [List.drop_append_of_le_length (by rw [encodePre_length])]
  rw [List.drop_of_length_le (le_of_eq (encodePre_length e))]
  rw [List.nil_append, List.append_assoc]
  rw [List.take_append_of_le_length (by rw [natToBytes_length])]
  rw [List.take_of_length_le (le_of_eq (natToBytes_length 32 _))]
  rw [bytesToNat_natToBytes]
  have h : (256 : Nat) ^ 32 = 2 ^ 256 := by norm_num
  rw [h]
  exact Nat.mod_eq_of_lt (payloadDigest_lt _)

/-- The payload of an encoded envelope (with any payload bytes appended
after the header) is read back exactly. -/
lemma drop_header (e : Envelope) (pl : List Nat) :
    ((encodePre e ++ natToBytes 32 (payloadDigest e.payload) ++
        encodePost e) ++ pl).drop headerSize = pl := by
  rw [List.drop_append_of_le_length (le_of_eq (encode_head_length e).symm)]
  rw [List.drop_of_length_le (le_of_eq (encode_head_length e))]
  rw [List.nil_append]

lemma list_set_append_right (A t : List Nat) (i b2 : Nat) :
    (A ++ t).set (A.length + i) b2 = A ++ t.set i b2 := by
  induction A with
  | nil => simp
  | cons a A ih =>
    show (a :: (A ++ t)).set (A.length + 1 + i) b2 = a :: (A ++ t.set i b2)
    have h : A.length + 1 + i = (A.length + i) + 1 := by omega
    rw [h]
    show a :: (A ++ t).set (A.length + i) b2 = a :: (A ++ t.set i b2)
    rw [ih]

lemma list_set_mid (xs ys : List Nat) (b b2 : Nat) :
    (xs ++ b :: ys).set xs.length b2 = xs ++ b2 :: ys := by
  induction xs with
  | nil => rfl
  | cons x xs ih =>
    show x :: (xs ++ b :: ys).set xs.length b2 = x :: (xs ++ b2 :: ys)
    rw [ih]

/-- Changing one byte of a payload (both byte values below 256) changes the
payload digest. -/
lemma digest_flip_ne {xs ys : List Nat} {b b2 : Nat}
    (hb : b < 256) (hb2 : b2 < 256) (hne : b2 ≠ b) :
    payloadDigest (xs ++ b2 :: ys) ≠ payloadDigest (xs ++ b :: ys) := by
  intro h
  have hmod : Nat.ModEq (2 ^ 256) ((xs ++ b2 :: ys).sum) ((xs ++ b :: ys).sum) := h
  have hdvd : ((2 : Int) ^ 256) ∣
      (((xs ++ b :: ys).sum : Int) - ((xs ++ b2 :: ys).sum : Int)) := by
    have := Nat.modEq_iff_dvd.mp hmod
    exact_mod_cast this
  have hsum : (((xs ++ b :: ys).sum : Int) - ((xs ++ b2 :: ys).sum : Int)) =
      (b : Int) - (b2 : Int) := by
    push_cast [List.sum_append, List.sum_cons]
    ring
  rw [hsum] at hdvd
  have hd0 : (b : Int) - (b2 : Int) ≠ 0 := by
    intro hc
    apply hne
    have : (b2 : Int) = (b : Int) := by omega
    exact_mod_cast this
  have hle := Int.le_of_dvd (abs_pos.mpr hd0) ((dvd_abs _ _).mpr hdvd)
  have habs : |(b : Int) - (b2 : Int)| < 256 := by
    rw [abs_lt]
    constructor
    · have h1 : (b2 : Int) < 256 := by exact_mod_cast hb2
      have h2 : (0 : Int) ≤ (b : Int) := Int.natCast_nonneg b
      omega
    · have h1 : (b : Int) < 256 := by exact_mod_cast hb
      have h2 : (0 : Int) ≤ (b2 : Int) := Int.natCast_nonneg b2
      omega
  have hbig : (256 : Int) < 2 ^ 256 := by norm_num
  omega

/-- Flipping a single payload byte of an encoded envelope makes the digest
check fail: decoding reports a digest mismatch, never a crash. -/
lemma decode_flip (e : Envelope) (xs ys : List Nat) (b b2 : Nat)
    (hpl : e.payload = xs ++ b :: ys) (hb : b < 256) (hb2 : b2 < 256)
    (hne : b2 ≠ b) :
    Decode ((Encode e).set (headerSize + xs.length) b2) =
      Except.error DecodeError.digestMismatch := by
  have hEnc : Encode e =
      (encodePre e ++ natToBytes 32 (payloadDigest e.payload) ++ encodePost e) ++
        (xs ++ b :: ys) := by
    rw [encode_assoc]
    congr 1
  have hset : (Encode e).set (headerSize + xs.length) b2 =
      (encodePre e ++ natToBytes 32 (payloadDigest e.payload) ++ encodePost e) ++
        (xs ++ b2 :: ys) := by
    rw [hEnc]
    rw [show headerSize =
      (encodePre e ++ natToBytes 32 (payloadDigest e.payload) ++ encodePost e).length
      from (encode_head_length e).symm]
    rw [list_set_append_right, list_set_mid]
  rw [hset]
  have hlen : ¬((encodePre e ++ natToBytes 32 (payloadDigest e.payload) ++
      encodePost e) ++ (xs ++ b2 :: ys)).length < headerSize := by
    rw [List.length_append, encode_head_length e]
    omega
  rw [Decode, if_neg hlen]
  rw [drop_header e (xs ++ b2 :: ys), sliceNat_digest e (xs ++ b2 :: ys)]
  rw [if_neg]
  rw [hpl]
  exact digest_flip_ne hb hb2 hne

/-- C3: `Decode` is total (it returns a typed `Except` value on every byte
string): an input shorter than the fixed header size fails with the
truncation error; an input whose computed payload hash differs from the
stored digest fails with the digest-mismatch error; and flipping any single
payload byte of an encoded envelope yields a digest-mismatch failure. -/
theorem c3_decode_total_typed_failure :
    (∀ bytes : List Nat, bytes.length < headerSize →
      Decode bytes = Except.error DecodeError.truncated) ∧
    (∀ bytes : List Nat, ¬bytes.length < headerSize →
      payloadDigest (bytes.drop headerSize) ≠ sliceNat bytes 76 32 →
      Decode bytes = Except.error DecodeError.digestMismatch) ∧
    (∀ (e : Envelope) (xs ys : List Nat) (b b2 : Nat),
      e.payload = xs ++ b :: ys → b < 256 → b2 < 256 → b2 ≠ b →
      Decode ((Encode e).set (headerSize + xs.length) b2) =
        Except.error DecodeError.digestMismatch) := by
  refine ⟨?_, ?_, ?_⟩
  · intro bytes h
    rw [Decode, if_pos h]
  · intro bytes h1 h2
    rw [Decode, if_neg h1, if_neg h2]
  · intro e xs ys b b2 hpl hb hb2 hne
    exact decode_flip e xs ys b b2 hpl hb hb2 hne

/-- Witness for C3: the empty input is truncated, and flipping the single
payload byte of a concrete encoded envelope is detected as a digest
mismatch. -/
theorem c3_decode_total_typed_failure_witness :
    Decode [] = Except.error DecodeError.truncated ∧
    Decode ((Encode ⟨1, 1, 0, 0, 0, 0, 0, [7]⟩).set (headerSize + 0) 8) =
      Except.error DecodeError.digestMismatch := by
  constructor
  · exact c3_decode_total_typed_failure.1 [] (by decide)
  · exact
      c3_decode_total_typed_failure.2.2 ⟨1, 1, 0, 0, 0, 0, 0, [7]⟩ [] [] 7 8
        rfl (by decide) (by decide) (by decide)

/-! ## Channel Engine: outbound path (spec §4.2 `Send`, `ResendScheduler`,
acknowledge) -/

/-- Modelled from the spec: `OutgoingBufferEntry` of spec §3 -
`{sequenceNumber, rawBytes, lastSentTime}`, removed only when a matching
acknowledgement arrives. -/
structure OutgoingEntry where
  sequenceNumber : Int
  rawBytes : List Nat
  lastSentTime : Int
deriving Repr, DecidableEq

/-- Modelled from the spec: the outbound-side state of the Channel Engine
(spec §4.2): the `nextOutgoingSequenceNumber` counter (init 0), the inbound
counter (to state that `Send` leaves it unchanged), the outgoing buffer,
and the transmission log - every envelope handed to the transport, as
(sequence number, raw bytes) in transmission order. -/
structure ChannelOutState where
  nextOutgoingSequenceNumber : Int
  expectedSequenceNumber : Int
  outgoingBuffer : List OutgoingEntry
  transmitted : List (Int × List Nat)
deriving Repr, DecidableEq

/-- Model constant: the wire tag of the input-stream-data message type. -/
def inputStreamDataTag : Nat := 1

/-- Modelled from the spec: the envelope built by `Send` - a stream-data
envelope carrying the assigned sequence number, the payload type and the
payload, stamped with the current time. -/
def mkStreamEnvelope (now : Int) (seq : Int) (ptype : Nat) (payload : List Nat) :
    Envelope :=
  { messageType := inputStreamDataTag
    schemaVersion := 1
    createdDate := now.toNat
    sequenceNumber := seq
    flags := 0
    messageId := 0
    payloadType := ptype
    payload := payload }

/-- Modelled from the spec: `Send(payload, payloadType)` (spec §4.2) -
assigns `nextOutgoingSequenceNumber`, encodes an envelope, stores a copy in
the outgoing buffer with `lastSentTime := now`, transmits it, then
increments the counter. (The successful-transport path; on transport
failure the entry stays buffered for the scheduler, which the resend model
below covers.) -/
def sendData (now : Int) (st : ChannelOutState) (payload : List Nat)
    (ptype : Nat) : ChannelOutState :=
  let raw := Encode (mkStreamEnvelope now st.nextOutgoingSequenceNumber ptype payload)
  { nextOutgoingSequenceNumber := st.nextOutgoingSequenceNumber + 1
    expectedSequenceNumber := st.expectedSequenceNumber
    outgoingBuffer :=
      st.outgoingBuffer ++ [⟨st.nextOutgoingSequenceNumber, raw, now⟩]
    transmitted := st.transmitted ++ [(st.nextOutgoingSequenceNumber, raw)] }

/-- Run a batch of `Send` calls ((payload, payloadType) pairs) in call
order. -/
def processSends (now : Int) : ChannelOutState → List (List Nat × Nat) → ChannelOutState
  | st, [] => st
  | st, (p, t) :: rest => processSends now (sendData now st p t) rest

/-- The Channel Engine's initial outbound state. -/
def chanOutStart : ChannelOutState := ⟨0, 0, [], []⟩

/-- The transmission log a batch of sends produces when the counter starts
at `k`: consecutive sequence numbers, each paired with its encoded
envelope. -/
def mkSendLog (now : Int) : Int → List (List Nat × Nat) → List (Int × List Nat)
  | _, [] => []
  | k, (p, t) :: rest =>
    (k, Encode (mkStreamEnvelope now k t p)) :: mkSendLog now (k + 1) rest

/-- Modelled from the spec: an entry is due for resend when its age since
`lastSentTime` exceeds the resend threshold (spec §4.2 ResendScheduler). -/
def resendDue (threshold now : Int) (entry : OutgoingEntry) : Bool :=
  decide (threshold < now - entry.lastSentTime)

/-- Refresh the timestamp of an entry that is being retransmitted. -/
def refreshEntry (threshold now : Int) (entry : OutgoingEntry) : OutgoingEntry :=
  if resendDue threshold now entry then { entry with lastSentTime := now } else entry

/-- Modelled from the spec: one tick of the `ResendScheduler` (spec §4.2) at
time `now` - every outgoing-buffer entry whose age exceeds the threshold is
retransmitted unmodified (its stored raw bytes are appended to the
transmission log) and its timestamp refreshed. -/
def resendTick (threshold now : Int) (st : ChannelOutState) : ChannelOutState :=
  { st with
    outgoingBuffer := st.outgoingBuffer.map (refreshEntry threshold now)
    transmitted := st.transmitted ++
      (st.outgoingBuffer.filter (resendDue threshold now)).map
        (fun entry => (entry.sequenceNumber, entry.rawBytes)) }

/-- Modelled from the spec: the acknowledge dispatch of `OnReceive`
(spec §4.2) - remove the entry with the matching sequence number from the
outgoing buffer if present; absence is not an error (the state is returned
unchanged). -/
def processAck (st : ChannelOutState) (s : Int) : ChannelOutState :=
  { st with
    outgoingBuffer := st.outgoingBuffer.filter
      (fun entry => entry.sequenceNumber ≠ s) }

/-- Run scheduler ticks at the given list of times. -/
def runTicks (threshold : Int) : ChannelOutState → List Int → ChannelOutState
  | st, [] => st
  | st, t :: rest => runTicks threshold (resendTick threshold t st) rest

/-- Number of transmissions of a given sequence number in a transmission
log. -/
def countSeq (s : Int) (log : List (Int × List Nat)) : Nat :=
  (log.filter (fun m => m.fst = s)).length

lemma processSends_spec (now : Int) :
    ∀ (sends : List (List Nat × Nat)) (st : ChannelOutState),
      (processSends now st sends).transmitted =
        st.transmitted ++ mkSendLog now st.nextOutgoingSequenceNumber sends ∧
      (processSends now st sends).outgoingBuffer =
        st.outgoingBuffer ++
          (mkSendLog now st.nextOutgoingSequenceNumber sends).map
            (fun m => ⟨m.1, m.2, now⟩) ∧
      (processSends now st sends).nextOutgoingSequenceNumber =
        st.nextOutgoingSequenceNumber + sends.length ∧
      (processSends now st sends).expectedSequenceNumber =
        st.expectedSequenceNumber := by
  intro sends
  induction sends with
  | nil =>
    intro st
    refine ⟨by simp [processSends, mkSendLog], by simp [processSends, mkSendLog], ?_, rfl⟩
    simp [processSends]
  | cons m rest ih =>
    intro st
    obtain ⟨p, t⟩ := m
    obtain ⟨ih1, ih2, ih3, ih4⟩ := ih (sendData now st p t)
    refine ⟨?_, ?_, ?_, ?_⟩
    · rw [processSends, ih1]
      simp [sendData, mkSendLog, List.append_assoc]
    · rw [processSends, ih2]
      simp [sendData, mkSendLog, List.append_assoc]
    · rw [processSends, ih3]
      simp [sendData]
      omega
    · rw [processSends, ih4]
      rfl

lemma mkSendLog_map_fst (now : Int) :
    ∀ (sends : List (List Nat × Nat)) (k : Int),
      (mkSendLog now k sends).map Prod.fst =
        (List.range sends.length).map (fun (i : Nat) => k + (i : Int)) := by
  intro sends
  induction sends with
  | nil => intro k; simp [mkSendLog]
  | cons m rest ih =>
    intro k
    obtain ⟨p, t⟩ := m
    rw [mkSendLog, List.map_cons, ih, List.length_cons, List.range_succ_eq_map,
      List.map_cons, List.map_map]
    congr 1
    · simp
    · apply List.map_congr_left
      intro i _
      simp only [Function.comp_apply]
      push_cast
      ring

lemma mkSendLog_length (now : Int) :
    ∀ (sends : List (List Nat × Nat)) (k : Int),
      (mkSendLog now k sends).length = sends.length := by
  intro sends
  induction sends with
  | nil => intro k; rfl
  | cons m rest ih =>
    intro k
    obtain ⟨p, t⟩ := m
    rw [mkSendLog]
    simp [ih]

/-- C4: `Send` stamps the outgoing envelope with the current
`nextOutgoingSequenceNumber`, stores a copy in the outgoing buffer,
transmits it exactly once, then increments that counter; across any batch
of `Send` calls from the initial state, the assigned sequence numbers are
`0, 1, 2, ...` in call order (in both the transmission log and the outgoing
buffer, one transmission per call) while `expectedSequenceNumber` is left
unchanged. -/
theorem c4_send_monotonic_sequence_numbers :
    (∀ (now : Int) (st : ChannelOutState) (p : List Nat) (t : Nat),
      sendData now st p t =
        { nextOutgoingSequenceNumber := st.nextOutgoingSequenceNumber + 1
          expectedSequenceNumber := st.expectedSequenceNumber
          outgoingBuffer := st.outgoingBuffer ++
            [⟨st.nextOutgoingSequenceNumber,
              Encode (mkStreamEnvelope now st.nextOutgoingSequenceNumber t p),
              now⟩]
          transmitted := st.transmitted ++
            [(st.nextOutgoingSequenceNumber,
              Encode (mkStreamEnvelope now st.nextOutgoingSequenceNumber t p))] }) ∧
    (∀ (now : Int) (sends : List (List Nat × Nat)),
      (processSends now chanOutStart sends).transmitted.map Prod.fst =
        (List.range sends.length).map (fun (i : Nat) => (i : Int)) ∧
      (processSends now chanOutStart sends).outgoingBuffer.map
          OutgoingEntry.sequenceNumber =
        (List.range sends.length).map (fun (i : Nat) => (i : Int)) ∧
      (processSends now chanOutStart sends).transmitted.length = sends.length ∧
      (processSends now chanOutStart sends).expectedSequenceNumber = 0 ∧
      (processSends now chanOutStart sends).nextOutgoingSequenceNumber =
        (sends.length : Int)) := by
  constructor
  · intro now st p t
    rfl
  · intro now sends
    obtain ⟨h1, h2, h3, h4⟩ := processSends_spec now sends chanOutStart
    have hfst : (mkSendLog now (0 : Int) sends).map Prod.fst =
        (List.range sends.length).map (fun (i : Nat) => (i : Int)) := by
      rw [mkSendLog_map_fst]
      apply List.map_congr_left
      intro i _
      omega
    refine ⟨?_, ?_, ?_, ?_, ?_⟩
    · rw [h1]
      show (mkSendLog now (0 : Int) sends).map Prod.fst = _
      exact hfst
    · rw [h2]
      show ((mkSendLog now (0 : Int) sends).map
          (fun m => (⟨m.1, m.2, now⟩ : OutgoingEntry))).map
          OutgoingEntry.sequenceNumber = _
      rw [List.map_map]
      exact hfst
    · rw [h1]
      show ((mkSendLog now (0 : Int) sends)).length = sends.length
      exact mkSendLog_length now sends 0
    · rw [h4]
      rfl
    · rw [h3]
      show (0 : Int) + (sends.length : Int) = (sends.length : Int)
      omega

lemma resendTick_single_due (T now s last : Int) (raw : List Nat)
    (nx ex : Int) (tr : List (Int × List Nat)) (h : T < now - last) :
    resendTick T now ⟨nx, ex, [⟨s, raw, last⟩], tr⟩ =
      ⟨nx, ex, [⟨s, raw, now⟩], tr ++ [(s, raw)]⟩ := by
  simp [resendTick, refreshEntry, resendDue, h]

lemma refreshEntry_seq (T now : Int) (entry : OutgoingEntry) :
    (refreshEntry T now entry).sequenceNumber = entry.sequenceNumber := by
  rw [refreshEntry]
  split <;> rfl

/-- After the entry with sequence number `s` is gone from the outgoing
buffer, no scheduler run ever transmits `s` again: every entry of the
final transmission log either predates the removal or carries a different
sequence number. -/
lemma runTicks_never_after_removed (T : Int) (s : Int) :
    ∀ (ticks : List Int) (st : ChannelOutState),
      (∀ entry ∈ st.outgoingBuffer, entry.sequenceNumber ≠ s) →
      ∀ m ∈ (runTicks T st ticks).transmitted,
        m ∈ st.transmitted ∨ m.fst ≠ s := by
  intro ticks
  induction ticks with
  | nil =>
    intro st _ m hm
    exact Or.inl hm
  | cons t rest ih =>
    intro st hbuf m hm
    rw [runTicks] at hm
    have hbuf1 : ∀ entry ∈ (resendTick T t st).outgoingBuffer,
        entry.sequenceNumber ≠ s := by
      intro entry hmem
      rw [resendTick] at hmem
      simp only [List.mem_map] at hmem
      obtain ⟨entry0, hmem0, heq⟩ := hmem
      rw [← heq, refreshEntry_seq]
      exact hbuf entry0 hmem0
    rcases ih (resendTick T t st) hbuf1 m hm with hold | hne
    · rw [resendTick] at hold
      simp only [List.mem_append, List.mem_map, List.mem_filter] at hold
      rcases hold with hold | ⟨entry0, ⟨hmem0, _⟩, heq⟩
      · exact Or.inl hold
      · refine Or.inr ?_
        rw [← heq]
        exact hbuf entry0 hmem0
    · exact Or.inr hne

/-- C5: the resend scheduler retransmits, unmodified and with its
`lastSentTime` refreshed, every outgoing-buffer entry whose age exceeds the
resend threshold on each tick; an unacknowledged envelope is retransmitted
at least twice within three tick periods (threshold below the tick
interval); an acknowledgement removes the matching entry from the outgoing
buffer - absence being a no-op, not an error - and afterwards that sequence
number is never retransmitted by any further scheduler run. -/
theorem c5_resend_until_acknowledged :
    (∀ (T now : Int) (st : ChannelOutState) (entry : OutgoingEntry),
      entry ∈ st.outgoingBuffer → T < now - entry.lastSentTime →
      (entry.sequenceNumber, entry.rawBytes) ∈ (resendTick T now st).transmitted ∧
      { entry with lastSentTime := now } ∈ (resendTick T now st).outgoingBuffer) ∧
    (∀ (T R s nx ex : Int) (raw : List Nat), T < R →
      2 ≤ countSeq s
        (runTicks T ⟨nx, ex, [⟨s, raw, 0⟩], []⟩ [R, 2 * R, 3 * R]).transmitted) ∧
    (∀ (st : ChannelOutState) (s : Int),
      (∀ entry ∈ (processAck st s).outgoingBuffer, entry.sequenceNumber ≠ s) ∧
      ((∀ entry ∈ st.outgoingBuffer, entry.sequenceNumber ≠ s) →
        processAck st s = st)) ∧
    (∀ (T s : Int) (st : ChannelOutState) (ticks : List Int),
      ∀ m ∈ (runTicks T (processAck st s) ticks).transmitted,
        m ∈ st.transmitted ∨ m.fst ≠ s) := by
  refine ⟨?_, ?_, ?_, ?_⟩
  · intro T now st entry hmem hdue
    have hdueb : resendDue T now entry = true := by
      simp [resendDue, hdue]
    constructor
    · rw [resendTick]
      simp only [List.mem_append, List.mem_map, List.mem_filter]
      exact Or.inr ⟨entry, ⟨hmem, hdueb⟩, rfl⟩
    · rw [resendTick]
      simp only [List.mem_map]
      exact ⟨entry, hmem, by rw [refreshEntry, if_pos hdueb]⟩
  · intro T R s nx ex raw hTR
    have e1 := resendTick_single_due T R s 0 raw nx ex [] (by omega)
    have e2 := resendTick_single_due T (2 * R) s R raw nx ex [(s, raw)] (by omega)
    have e3 := resendTick_single_due T (3 * R) s (2 * R) raw nx ex
      ([(s, raw)] ++ [(s, raw)]) (by omega)
    simp only [runTicks]
    rw [e1]
    simp only [List.nil_append]
    rw [e2, e3]
    simp [countSeq]
  · intro st s
    constructor
    · intro entry hmem
      rw [processAck] at hmem
      simp only [List.mem_filter, decide_eq_true_eq] at hmem
      exact hmem.2
    · intro hbuf
      have hfe : st.outgoingBuffer.filter
          (fun entry => entry.sequenceNumber ≠ s) = st.outgoingBuffer := by
        apply List.filter_eq_self.mpr
        intro entry hmem
        simp [hbuf entry hmem]
      rw [processAck, hfe]
  · intro T s st ticks m hm
    apply runTicks_never_after_removed T s ticks (processAck st s)
    · intro entry hmem
      rw [processAck] at hmem
      simp only [List.mem_filter, decide_eq_true_eq] at hmem
      exact hmem.2
    · exact hm

/-- Witness for C5: a single never-acknowledged entry (threshold 100, tick
interval 200) is retransmitted at least twice over three ticks, and an
acknowledgement for an absent sequence number leaves the state unchanged. -/
theorem c5_resend_until_acknowledged_witness :
    2 ≤ countSeq 5
      (runTicks 100 ⟨1, 0, [⟨5, [1], 0⟩], []⟩ [200, 2 * 200, 3 * 200]).transmitted ∧
    processAck ⟨1, 0, [⟨5, [1], 0⟩], []⟩ 7 = ⟨1, 0, [⟨5, [1], 0⟩], []⟩ := by
  constructor
  · exact c5_resend_until_acknowledged.2.1 100 200 5 1 0 [1] (by decide)
  · exact
      (c5_resend_until_acknowledged.2.2.1 ⟨1, 0, [⟨5, [1], 0⟩], []⟩ 7).2
        (by
          intro entry hmem
          simp only [List.mem_singleton] at hmem
          subst hmem
          decide)

/-! ## Port Session Layer (spec §4.3 handshake, §4.4 variants) -/

/-- Modelled from the spec: the three interchangeable Port Session variants
of spec §4.4. -/
inductive PortVariantKind where
  | standardStreamForwarding
  | basicPortForwarding
  | muxPortForwarding
deriving Repr, DecidableEq

/-- Modelled from the spec: the outcome of the handshake phase (spec §4.3):
either completed - with the negotiated capability set recording whether
multiplexing is supported - or timed out. -/
inductive HandshakeOutcome where
  | completed (supportsMuxCapability : Bool)
  | timedOut
deriving Repr, DecidableEq

/-- Modelled from the spec: waiting a bounded time for the
handshake-request (spec §4.3). `requestArrival` is the arrival time of the
handshake-request and the multiplexing capability it advertises, or `none`
if no request ever arrives; arrivals after the timeout count as absent. -/
def handshakeWait (requestArrival : Option (Nat × Bool)) (timeout : Nat) :
    HandshakeOutcome :=
  match requestArrival with
  | none => HandshakeOutcome.timedOut
  | some (t, mux) =>
    if t ≤ timeout then HandshakeOutcome.completed mux
    else HandshakeOutcome.timedOut

/-- Modelled from the spec: the one-time variant selection of spec §4.4 -
shell sessions use standard-stream forwarding; port-forwarding sessions use
the multiplexed variant when the completed handshake advertises the
capability, and fall back to the legacy single-connection variant when it
does not or when the handshake timed out. Selection is total: a timeout is
a degraded path, not an error. -/
def selectVariant (isPortForwarding : Bool) (h : HandshakeOutcome) :
    PortVariantKind :=
  if isPortForwarding then
    match h with
    | HandshakeOutcome.completed true => PortVariantKind.muxPortForwarding
    | HandshakeOutcome.completed false => PortVariantKind.basicPortForwarding
    | HandshakeOutcome.timedOut => PortVariantKind.basicPortForwarding
  else PortVariantKind.standardStreamForwarding

/-- The Port Session after initialization: the selected variant, fixed at
construction, and the log of (variant that handled it, message) pairs. -/
structure PortSessionState where
  variant : PortVariantKind
  handledBy : List (PortVariantKind × List Nat)
deriving Repr, DecidableEq

/-- Start the Port Session: the variant is computed once, from the
handshake outcome. -/
def startPortSession (isPortForwarding : Bool) (h : HandshakeOutcome) :
    PortSessionState :=
  ⟨selectVariant isPortForwarding h, []⟩

/-- Handle one inbound message: it is dispatched to the session's stored
variant; the variant is not re-evaluated. -/
def handlePortMessage (st : PortSessionState) (m : List Nat) : PortSessionState :=
  { st with handledBy := st.handledBy ++ [(st.variant, m)] }

/-- Handle a whole message sequence. -/
def runPortMessages (st : PortSessionState) (msgs : List (List Nat)) :
    PortSessionState :=
  msgs.foldl handlePortMessage st

lemma runPortMessages_spec :
    ∀ (msgs : List (List Nat)) (st : PortSessionState),
      (runPortMessages st msgs).variant = st.variant ∧
      (runPortMessages st msgs).handledBy =
        st.handledBy ++ msgs.map (fun m => (st.variant, m)) := by
  intro msgs
  induction msgs with
  | nil => intro st; exact ⟨rfl, by simp [runPortMessages]⟩
  | cons m rest ih =>
    intro st
    obtain ⟨ih1, ih2⟩ := ih (handlePortMessage st m)
    refine ⟨ih1, ?_⟩
    rw [show runPortMessages st (m :: rest) =
      runPortMessages (handlePortMessage st m) rest from rfl, ih2]
    simp [handlePortMessage, List.append_assoc]

/-- C7: the Port Session variant - one of StandardStreamForwarding,
BasicPortForwarding, MuxPortForwarding - is computed exactly once, from the
handshake outcome, and every subsequent message is handled by that same
stored variant (never re-evaluated); when no handshake-request arrives
within the bounded timeout (or it arrives too late), the outcome is a
timeout and a port-forwarding session falls back to the legacy
BasicPortForwarding variant instead of failing. -/
theorem c7_variant_selected_once_with_timeout_fallback :
    (∀ (f : Bool) (h : HandshakeOutcome) (msgs : List (List Nat)),
      (runPortMessages (startPortSession f h) msgs).variant = selectVariant f h ∧
      (runPortMessages (startPortSession f h) msgs).handledBy =
        msgs.map (fun m => (selectVariant f h, m))) ∧
    (∀ timeout : Nat, handshakeWait none timeout = HandshakeOutcome.timedOut) ∧
    (∀ (t timeout : Nat) (mux : Bool), timeout < t →
      handshakeWait (some (t, mux)) timeout = HandshakeOutcome.timedOut) ∧
    selectVariant true HandshakeOutcome.timedOut =
      PortVariantKind.basicPortForwarding := by
  refine ⟨?_, ?_, ?_, rfl⟩
  · intro f h msgs
    obtain ⟨h1, h2⟩ := runPortMessages_spec msgs (startPortSession f h)
    exact ⟨h1, by rw [h2]; simp [startPortSession]⟩
  · intro timeout
    rfl
  · intro t timeout mux hlt
    rw [handshakeWait, if_neg (by omega)]

/-- Witness for C7: with no handshake-request within timeout 10, a
port-forwarding session handles all messages with the fallback
BasicPortForwarding variant. -/
theorem c7_variant_selected_once_with_timeout_fallback_witness :
    handshakeWait (some (11, true)) 10 = HandshakeOutcome.timedOut ∧
    (runPortMessages (startPortSession true HandshakeOutcome.timedOut)
        [[1], [2]]).variant = selectVariant true HandshakeOutcome.timedOut := by
  constructor
  · exact
      c7_variant_selected_once_with_timeout_fallback.2.2.1 11 10 true (by decide)
  · exact
      (c7_variant_selected_once_with_timeout_fallback.1 true
        HandshakeOutcome.timedOut [[1], [2]]).1

/-! ## Stream Multiplexer data transfer (spec §4.4 MuxPortForwarding) -/

/-- Modelled from the spec: the events one end of a connection yields to
its reader - a chunk of bytes, an orderly close, or an error. -/
inductive ReadEvent where
  | bytes (chunk : List Nat)
  | closedByPeer
  | failed
deriving Repr, DecidableEq

/-- The chunks readable before the first close or error event. -/
def leadingChunks : List ReadEvent → List (List Nat)
  | [] => []
  | ReadEvent.bytes c :: rest => c :: leadingChunks rest
  | ReadEvent.closedByPeer :: _ => []
  | ReadEvent.failed :: _ => []

/-- Modelled from the spec: one direction of the copy pump - read chunks
from one end, appending each unchanged to the bytes written to the other
end, until the source closes or errors. -/
def copyLoop : List ReadEvent → List Nat → List Nat
  | [], dst => dst
  | ReadEvent.bytes c :: rest, dst => copyLoop rest (dst ++ c)
  | ReadEvent.closedByPeer :: _, dst => dst
  | ReadEvent.failed :: _, dst => dst

/-- Outcome of a bidirectional transfer: the bytes written to each end and
whether each end was closed when the transfer finished. -/
structure TransferResult where
  dstWritten : List Nat
  srcWritten : List Nat
  dstClosedAfter : Bool
  srcClosedAfter : Bool
deriving Repr, DecidableEq

/-- Modelled from the spec: `handleDataTransfer` (spec §4.4
MuxPortForwarding) - a bidirectional copy loop pumps bytes between the
local connection (`src`) and its sub-stream (`dst`) until either side
closes or errors, at which point both ends are closed. Each direction is
determined by the read-event script of its source end. -/
def handleDataTransfer (srcEvents dstEvents : List ReadEvent) : TransferResult :=
  { dstWritten := copyLoop srcEvents []
    srcWritten := copyLoop dstEvents []
    dstClosedAfter := true
    srcClosedAfter := true }

/-- Modelled from the spec: the multiplexer state - the next fresh
sub-stream id and the (connection, sub-stream) bindings made so far. -/
structure MuxState where
  nextStreamId : Nat
  bindings : List (Nat × Nat)
deriving Repr, DecidableEq

/-- Modelled from the spec: each accepted local connection opens a new
multiplexed sub-stream (spec §4.4), bound 1:1 to the connection. -/
def openStreamFor (st : MuxState) (connId : Nat) : MuxState :=
  { nextStreamId := st.nextStreamId + 1
    bindings := st.bindings ++ [(connId, st.nextStreamId)] }

/-- Accept a list of local connections in order. -/
def acceptAll (st : MuxState) (conns : List Nat) : MuxState :=
  conns.foldl openStreamFor st

/-- The multiplexer's initial state. -/
def muxStart : MuxState := ⟨0, []⟩

/-- The bindings produced by accepting `conns` when the next fresh stream
id is `k`. -/
def mkBindings : Nat → List Nat → List (Nat × Nat)
  | _, [] => []
  | k, c :: rest => (c, k) :: mkBindings (k + 1) rest

lemma copyLoop_join :
    ∀ (events : List ReadEvent) (dst : List Nat),
      copyLoop events dst = dst ++ (leadingChunks events).flatten := by
  intro events
  induction events with
  | nil => intro dst; simp [copyLoop, leadingChunks]
  | cons ev rest ih =>
    intro dst
    cases ev with
    | bytes c =>
      rw [show copyLoop (ReadEvent.bytes c :: rest) dst = copyLoop rest (dst ++ c)
        from rfl, ih]
      simp [leadingChunks, List.append_assoc]
    | closedByPeer => simp [copyLoop, leadingChunks]
    | failed => simp [copyLoop, leadingChunks]

lemma acceptAll_spec :
    ∀ (conns : List Nat) (st : MuxState),
      (acceptAll st conns).bindings = st.bindings ++ mkBindings st.nextStreamId conns ∧
      (acceptAll st conns).nextStreamId = st.nextStreamId + conns.length := by
  intro conns
  induction conns with
  | nil => intro st; exact ⟨by simp [acceptAll, mkBindings], by simp [acceptAll]⟩
  | cons c rest ih =>
    intro st
    obtain ⟨ih1, ih2⟩ := ih (openStreamFor st c)
    constructor
    · rw [show acceptAll st (c :: rest) = acceptAll (openStreamFor st c) rest
        from rfl, ih1]
      simp [openStreamFor, mkBindings, List.append_assoc]
    · rw [show acceptAll st (c :: rest) = acceptAll (openStreamFor st c) rest
        from rfl, ih2]
      simp only [openStreamFor, List.length_cons]
      omega

lemma mkBindings_map_fst :
    ∀ (conns : List Nat) (k : Nat), (mkBindings k conns).map Prod.fst = conns := by
  intro conns
  induction conns with
  | nil => intro k; rfl
  | cons c rest ih =>
    intro k
    rw [mkBindings, List.map_cons, ih]

lemma mkBindings_map_snd :
    ∀ (conns : List Nat) (k : Nat),
      (mkBindings k conns).map Prod.snd =
        (List.range conns.length).map (fun i => k + i) := by
  intro conns
  induction conns with
  | nil => intro k; rfl
  | cons c rest ih =>
    intro k
    rw [mkBindings, List.map_cons, ih, List.length_cons, List.range_succ_eq_map,
      List.map_cons, List.map_map]
    have htail : List.map (fun i => k + 1 + i) (List.range rest.length) =
        List.map ((fun i => k + i) ∘ Nat.succ) (List.range rest.length) := by
      apply List.map_congr_left
      intro i _
      simp only [Function.comp_apply]
      omega
    have hhead : ((c, k) : Nat × Nat).2 = (fun i => k + i) 0 := by simp
    rw [htail, hhead]

/-- C8: under the multiplexed variant each accepted local connection is
bound to its own fresh sub-stream (bindings pair the connections, in
order, with pairwise-distinct sub-stream ids), and the bidirectional copy
loop forwards every byte read from one end to the other end unchanged and
in order - in both directions - until that side closes or errors, after
which both ends are closed. -/
theorem c8_mux_transfer_bytes_in_order_both_ends_closed :
    (∀ (srcEvents dstEvents : List ReadEvent),
      handleDataTransfer srcEvents dstEvents =
        ⟨(leadingChunks srcEvents).flatten, (leadingChunks dstEvents).flatten,
          true, true⟩) ∧
    (∀ conns : List Nat,
      ((acceptAll muxStart conns).bindings).map Prod.fst = conns ∧
      ((acceptAll muxStart conns).bindings).map Prod.snd =
        List.range conns.length ∧
      (((acceptAll muxStart conns).bindings).map Prod.snd).Nodup) := by
  constructor
  · intro srcEvents dstEvents
    rw [handleDataTransfer, copyLoop_join, copyLoop_join]
    simp
  · intro conns
    have hsnd : ((acceptAll muxStart conns).bindings).map Prod.snd =
        List.range conns.length := by
      rw [(acceptAll_spec conns muxStart).1]
      show (mkBindings 0 conns).map Prod.snd = _
      rw [mkBindings_map_snd]
      simp
    refine ⟨?_, hsnd, ?_⟩
    · rw [(acceptAll_spec conns muxStart).1]
      show (mkBindings 0 conns).map Prod.fst = conns
      exact mkBindings_map_fst conns 0
    · rw [hsnd]
      exact List.nodup_range _

/-! ## ssm-port-forward CLI (translated from src/ssm-port-forward-main/main.go) -/

/-- Go `strings.Split(s, sep)` for a one-character separator, on character
lists: splits at every separator; the empty string yields one empty part. -/
def goSplit (sep : Char) : List Char → List (List Char)
  | [] => [[]]
  | c :: rest =>
    if c = sep then [] :: goSplit sep rest
    else
      match goSplit sep rest with
      | [] => [[c]]
      | g :: gs => (c :: g) :: gs

/-- Accumulate decimal digits; fails on any non-digit character. -/
def digitsToNat : List Char → Nat → Option Nat
  | [], acc => some acc
  | c :: rest, acc =>
    if c.isDigit then digitsToNat rest (acc * 10 + (c.toNat - 48))
    else none

/-- Go `strconv.Atoi`: an optional sign followed by at least one decimal
digit, within the signed 64-bit range (out-of-range input is an error,
which is all `parseArgs` observes about it). -/
def goAtoi (s : List Char) : Option Int :=
  match s with
  | [] => none
  | '+' :: rest =>
    match rest with
    | [] => none
    | _ =>
      match digitsToNat rest 0 with
      | none => none
      | some v => if v ≤ 2 ^ 63 - 1 then some (v : Int) else none
  | '-' :: rest =>
    match rest with
    | [] => none
    | _ =>
      match digitsToNat rest 0 with
      | none => none
      | some v => if v ≤ 2 ^ 63 then some (-(v : Int)) else none
  | _ =>
    match digitsToNat s 0 with
    | none => none
    | some v => if v ≤ 2 ^ 63 - 1 then some (v : Int) else none

/-- The forwarding-relevant fields of `PortForwardConfig` (main.go). -/
structure PortForwardConfig where
  localPort : List Char
  remoteHost : List Char
  remotePort : List Char
  documentName : List Char
deriving Repr, DecidableEq

/-- `DefaultDocumentName` (main.go line 41). -/
def defaultDocumentName : List Char := "AWS-StartPortForwardingSession".toList

/-- The document name auto-selected for non-localhost remote hosts
(main.go line 152). -/
def remoteHostDocumentName : List Char :=
  "AWS-StartPortForwardingSessionToRemoteHost".toList

def localhostName : List Char := "localhost".toList

def loopbackName : List Char := "127.0.0.1".toList

/-- Failure cases of the `-L` specification parsing (main.go lines
120-147). -/
inductive ParseFailure where
  | badSpec
  | badLocalPort
  | localPortRange
  | badRemotePort
  | remotePortRange
deriving Repr, DecidableEq

/-- Port validation and document-name auto-selection of `parseArgs`
(main.go lines 136-154): the local port must be a number in 0-65535 (0
meaning the OS will choose), the remote port a number in 1-65535; when the
document name equals the default and the remote host is neither
"localhost" nor "127.0.0.1", the document name is replaced by the
remote-host document. -/
def validatePorts (lp rh rp documentName : List Char) :
    Except ParseFailure PortForwardConfig :=
  match goAtoi lp with
  | none => Except.error ParseFailure.badLocalPort
  | some lpn =>
    if lpn < 0 ∨ 65535 < lpn then Except.error ParseFailure.localPortRange
    else
      match goAtoi rp with
      | none => Except.error ParseFailure.badRemotePort
      | some rpn =>
        if rpn ≤ 0 ∨ 65535 < rpn then Except.error ParseFailure.remotePortRange
        else
          Except.ok
            { localPort := lp
              remoteHost := rh
              remotePort := rp
              documentName :=
                if documentName = defaultDocumentName ∧
                    rh ≠ localhostName ∧ rh ≠ loopbackName then
                  remoteHostDocumentName
                else documentName }

/-- The `-L` specification parsing of `parseArgs` (main.go lines 120-134):
split on ':'; two parts mean `localPort:remotePort` with remote host
"localhost" implied; three parts mean `localPort:remoteHost:remotePort`;
anything else is rejected. -/
def parseForwardSpec (localForward documentName : List Char) :
    Except ParseFailure PortForwardConfig :=
  match goSplit ':' localForward with
  | [lp, rp] => validatePorts lp localhostName rp documentName
  | [lp, rh, rp] => validatePorts lp rh rp documentName
  | _ => Except.error ParseFailure.badSpec

/-- The local-port selection of `run` (main.go lines 219-229): a requested
local port of "0" is replaced by the port the OS allocated (obtained from a
bound listener's address, abstracted here as the `allocatedPort` input);
any other requested port is used as is. -/
def chooseLocalPort (configLocalPort allocatedPort : List Char) : List Char :=
  if configLocalPort = "0".toList then allocatedPort else configLocalPort

/-- The port number reported in the CLI's output (main.go line 305): the
chosen local port converted back to an integer. -/
def reportedPort (actualLocalPort : List Char) : Option Int :=
  goAtoi actualLocalPort

/-- The session parameters of `run` (main.go lines 232-240): `portNumber`
and `localPortNumber` always; a `host` entry exactly when the remote host
is neither "localhost" nor "127.0.0.1". -/
def buildSessionParams (cfg : PortForwardConfig) (actualLocalPort : List Char) :
    List (List Char × List Char) :=
  [("portNumber".toList, cfg.remotePort),
   ("localPortNumber".toList, actualLocalPort)] ++
  (if cfg.remoteHost ≠ localhostName ∧ cfg.remoteHost ≠ loopbackName then
    [("host".toList, cfg.remoteHost)]
  else [])

/-- Spec-side predicate (follows the claim's words): the string is a
number accepted by Go's Atoi whose value lies in 0-65535. -/
def specLocalPortOk (s : List Char) : Prop :=
  ∃ v : Int, goAtoi s = some v ∧ 0 ≤ v ∧ v ≤ 65535

/-- Spec-side predicate (follows the claim's words): the string is a
number accepted by Go's Atoi whose value lies in 1-65535. -/
def specRemotePortOk (s : List Char) : Prop :=
  ∃ v : Int, goAtoi s = some v ∧ 1 ≤ v ∧ v ≤ 65535

/-- Spec-side predicate (follows the claim's words): the `-L` string
splits on ':' into two or three parts whose local port is a number in
0-65535 and whose remote port is a number in 1-65535. -/
def specParseOk (lf : List Char) : Prop :=
  match goSplit ':' lf with
  | [lp, rp] => specLocalPortOk lp ∧ specRemotePortOk rp
  | [lp, _, rp] => specLocalPortOk lp ∧ specRemotePortOk rp
  | _ => False

example : parseForwardSpec "8080:80".toList defaultDocumentName =
    Except.ok ⟨"8080".toList, "localhost".toList, "80".toList,
      defaultDocumentName⟩ := by rfl

example : parseForwardSpec "5432:db.internal:5432".toList defaultDocumentName =
    Except.ok ⟨"5432".toList, "db.internal".toList, "5432".toList,
      remoteHostDocumentName⟩ := by rfl

example : parseForwardSpec "0:99999".toList defaultDocumentName =
    Except.error ParseFailure.remotePortRange := by rfl

example : parseForwardSpec "a:b:c:d".toList defaultDocumentName =
    Except.error ParseFailure.badSpec := by rfl

lemma validatePorts_ok_iff (lp rh rp doc : List Char) :
    (∃ cfg, validatePorts lp rh rp doc = Except.ok cfg) ↔
      specLocalPortOk lp ∧ specRemotePortOk rp := by
  constructor
  · rintro ⟨cfg, hcfg⟩
    rcases hlp : goAtoi lp with _ | lpn
    · simp only [validatePorts, hlp] at hcfg
      exact Except.noConfusion hcfg
    · simp only [validatePorts, hlp] at hcfg
      by_cases h1 : lpn < 0 ∨ 65535 < lpn
      · rw [if_pos h1] at hcfg
        exact Except.noConfusion hcfg
      · rw [if_neg h1] at hcfg
        rcases hrp : goAtoi rp with _ | rpn
        · simp only [hrp] at hcfg
          exact Except.noConfusion hcfg
        · simp only [hrp] at hcfg
          by_cases h2 : rpn ≤ 0 ∨ 65535 < rpn
          · rw [if_pos h2] at hcfg
            exact Except.noConfusion hcfg
          · exact ⟨⟨lpn, hlp, by omega, by omega⟩, ⟨rpn, hrp, by omega, by omega⟩⟩
  · rintro ⟨⟨lv, hlv, hlv0, hlv1⟩, ⟨rv, hrv, hrv0, hrv1⟩⟩
    simp only [validatePorts, hlv, hrv]
    rw [if_neg (by omega : ¬(lv < 0 ∨ 65535 < lv)),
      if_neg (by omega : ¬(rv ≤ 0 ∨ 65535 < rv))]
    exact ⟨_, rfl⟩

lemma validatePorts_fields {lp rh rp doc : List Char} {cfg : PortForwardConfig}
    (hcfg : validatePorts lp rh rp doc = Except.ok cfg) :
    cfg.localPort = lp ∧ cfg.remoteHost = rh ∧ cfg.remotePort = rp ∧
      cfg.documentName =
        (if doc = defaultDocumentName ∧ rh ≠ localhostName ∧ rh ≠ loopbackName
          then remoteHostDocumentName else doc) := by
  rcases hlp : goAtoi lp with _ | lpn
  · simp only [validatePorts, hlp] at hcfg
    exact Except.noConfusion hcfg
  · simp only [validatePorts, hlp] at hcfg
    by_cases h1 : lpn < 0 ∨ 65535 < lpn
    · rw [if_pos h1] at hcfg
      exact Except.noConfusion hcfg
    · rw [if_neg h1] at hcfg
      rcases hrp : goAtoi rp with _ | rpn
      · simp only [hrp] at hcfg
        exact Except.noConfusion hcfg
      · simp only [hrp] at hcfg
        by_cases h2 : rpn ≤ 0 ∨ 65535 < rpn
        · rw [if_pos h2] at hcfg
          exact Except.noConfusion hcfg
        · rw [if_neg h2] at hcfg
          injection hcfg with h
          rw [← h]
          exact ⟨rfl, rfl, rfl, rfl⟩

/-- C9: parsing the `-L` argument succeeds exactly when the string splits
on ':' into two or three parts whose local port is a number in 0-65535 and
whose remote port is a number in 1-65535; with two parts the remote host is
set to "localhost", with three parts it is the middle part (local and
remote port taken from the outer parts); and a requested local port of "0"
is replaced by the OS-allocated port - whose value is what the output
reports - while any other request is used as is. -/
theorem c9_parse_forward_spec_iff :
    (∀ lf doc : List Char,
      (∃ cfg, parseForwardSpec lf doc = Except.ok cfg) ↔ specParseOk lf) ∧
    (∀ (lf doc : List Char) (cfg : PortForwardConfig),
      parseForwardSpec lf doc = Except.ok cfg →
      (∀ lp rp, goSplit ':' lf = [lp, rp] →
        cfg.localPort = lp ∧ cfg.remoteHost = localhostName ∧
          cfg.remotePort = rp) ∧
      (∀ lp rh rp, goSplit ':' lf = [lp, rh, rp] →
        cfg.localPort = lp ∧ cfg.remoteHost = rh ∧ cfg.remotePort = rp)) ∧
    (∀ alloc : List Char, chooseLocalPort "0".toList alloc = alloc) ∧
    (∀ p alloc : List Char, p ≠ "0".toList → chooseLocalPort p alloc = p) ∧
    (∀ (alloc : List Char) (v : Int), goAtoi alloc = some v →
      reportedPort (chooseLocalPort "0".toList alloc) = some v) := by
  refine ⟨?_, ?_, ?_, ?_, ?_⟩
  · intro lf doc
    rcases hsplit : goSplit ':' lf with _ | ⟨lp, _ | ⟨p2, _ | ⟨p3, _ | ⟨p4, rest⟩⟩⟩⟩
    · simp only [parseForwardSpec, specParseOk, hsplit]
      constructor
      · rintro ⟨cfg, hcfg⟩
        exact Except.noConfusion hcfg
      · intro h
        exact absurd h (by simp)
    · simp only [parseForwardSpec, specParseOk, hsplit]
      constructor
      · rintro ⟨cfg, hcfg⟩
        exact Except.noConfusion hcfg
      · intro h
        exact absurd h (by simp)
    · simp only [parseForwardSpec, specParseOk, hsplit]
      exact validatePorts_ok_iff lp localhostName p2 doc
    · simp only [parseForwardSpec, specParseOk, hsplit]
      exact validatePorts_ok_iff lp p2 p3 doc
    · simp only [parseForwardSpec, specParseOk, hsplit]
      constructor
      · rintro ⟨cfg, hcfg⟩
        exact Except.noConfusion hcfg
      · intro h
        exact absurd h (by simp)
  · intro lf doc cfg hcfg
    constructor
    · intro lp rp hsplit
      rw [parseForwardSpec, hsplit] at hcfg
      obtain ⟨h1, h2, h3, _⟩ := validatePorts_fields hcfg
      exact ⟨h1, h2, h3⟩
    · intro lp rh rp hsplit
      rw [parseForwardSpec, hsplit] at hcfg
      obtain ⟨h1, h2, h3, _⟩ := validatePorts_fields hcfg
      exact ⟨h1, h2, h3⟩
  · intro alloc
    rw [chooseLocalPort, if_pos rfl]
  · intro p alloc hne
    rw [chooseLocalPort, if_neg hne]
  · intro alloc v hv
    rw [reportedPort, chooseLocalPort, if_pos rfl]
    exact hv

/-- Witness for C9: "8080:80" parses with remote host "localhost"; a
requested port "0" is replaced by the allocated port "49213" and that port
is reported; a non-zero request is kept. -/
theorem c9_parse_forward_spec_iff_witness :
    ((⟨"8080".toList, "localhost".toList, "80".toList, defaultDocumentName⟩ :
        PortForwardConfig).localPort = "8080".toList ∧
      (⟨"8080".toList, "localhost".toList, "80".toList, defaultDocumentName⟩ :
        PortForwardConfig).remoteHost = localhostName ∧
      (⟨"8080".toList, "localhost".toList, "80".toList, defaultDocumentName⟩ :
        PortForwardConfig).remotePort = "80".toList) ∧
    chooseLocalPort "0".toList "49213".toList = "49213".toList ∧
    chooseLocalPort "8080".toList "49213".toList = "8080".toList ∧
    reportedPort (chooseLocalPort "0".toList "49213".toList) = some 49213 := by
  refine ⟨?_, ?_, ?_, ?_⟩
  · exact
      ((c9_parse_forward_spec_iff.2.1 "8080:80".toList defaultDocumentName
        ⟨"8080".toList, "localhost".toList, "80".toList, defaultDocumentName⟩
        (by rfl)).1 "8080".toList "80".toList (by rfl))
  · exact c9_parse_forward_spec_iff.2.2.1 "49213".toList
  · exact c9_parse_forward_spec_iff.2.2.2.1 "8080".toList "49213".toList (by decide)
  · exact c9_parse_forward_spec_iff.2.2.2.2 "49213".toList 49213 (by rfl)

lemma defaultDocumentName_ne_remoteHost :
    defaultDocumentName ≠ remoteHostDocumentName := by decide

/-- C10: when the document name is left at its default
(AWS-StartPortForwardingSession), a successfully parsed configuration has
document name AWS-StartPortForwardingSessionToRemoteHost exactly when the
remote host is neither "localhost" nor "127.0.0.1" (and otherwise keeps
the default); correspondingly, the session parameters passed to
StartSession contain a "host" entry exactly when the remote host is
neither "localhost" nor "127.0.0.1". -/
theorem c10_remote_host_document_and_host_param :
    ∀ (lf actual : List Char) (cfg : PortForwardConfig),
      parseForwardSpec lf defaultDocumentName = Except.ok cfg →
      ((cfg.documentName = remoteHostDocumentName ↔
        (cfg.remoteHost ≠ localhostName ∧ cfg.remoteHost ≠ loopbackName)) ∧
      (cfg.documentName = remoteHostDocumentName ∨
        cfg.documentName = defaultDocumentName) ∧
      ("host".toList ∈ (buildSessionParams cfg actual).map Prod.fst ↔
        (cfg.remoteHost ≠ localhostName ∧ cfg.remoteHost ≠ loopbackName))) := by
  intro lf actual cfg hcfg
  have hdoc : cfg.documentName =
      (if defaultDocumentName = defaultDocumentName ∧
          cfg.remoteHost ≠ localhostName ∧ cfg.remoteHost ≠ loopbackName
        then remoteHostDocumentName else defaultDocumentName) := by
    rcases hsplit : goSplit ':' lf with _ | ⟨lp, _ | ⟨p2, _ | ⟨p3, _ | ⟨p4, rest⟩⟩⟩⟩ <;>
      rw [parseForwardSpec, hsplit] at hcfg
    · exact Except.noConfusion hcfg
    · exact Except.noConfusion hcfg
    · obtain ⟨_, h2, _, h4⟩ := validatePorts_fields hcfg
      rw [h4, h2]
    · obtain ⟨_, h2, _, h4⟩ := validatePorts_fields hcfg
      rw [h4, h2]
    · exact Except.noConfusion hcfg
  by_cases hr : cfg.remoteHost ≠ localhostName ∧ cfg.remoteHost ≠ loopbackName
  · rw [if_pos ⟨rfl, hr⟩] at hdoc
    refine ⟨?_, Or.inl hdoc, ?_⟩
    · exact ⟨fun _ => hr, fun _ => hdoc⟩
    · rw [buildSessionParams, if_pos hr]
      constructor
      · intro _
        exact hr
      · intro _
        simp
  · rw [if_neg (fun hc => hr hc.2)] at hdoc
    refine ⟨?_, Or.inr hdoc, ?_⟩
    · constructor
      · intro hc
        rw [hdoc] at hc
        exact absurd hc defaultDocumentName_ne_remoteHost
      · intro hc
        exact absurd hc hr
    · rw [buildSessionParams, if_neg hr]
      constructor
      · intro hc
        simp only [List.map_append, List.map_cons, List.map_nil,
          List.mem_append, List.mem_cons, List.not_mem_nil] at hc
        rcases hc with h | h
        · rcases h with h | h | h
          · exact absurd h (by decide)
          · exact absurd h (by decide)
          · exact absurd h (by simp at h)
        · exact absurd h (by simp at h)
      · intro hc
        exact absurd hc hr

/-- Witness for C10: parsing "5432:db.internal:5432" with the default
document name auto-selects the remote-host document and the session
parameters carry a "host" entry; the remote host "db.internal" is neither
"localhost" nor "127.0.0.1". -/
theorem c10_remote_host_document_and_host_param_witness :
    ((⟨"5432".toList, "db.internal".toList, "5432".toList,
        remoteHostDocumentName⟩ : PortForwardConfig).documentName =
          remoteHostDocumentName ↔
      ((⟨"5432".toList, "db.internal".toList, "5432".toList,
        remoteHostDocumentName⟩ : PortForwardConfig).remoteHost ≠ localhostName ∧
       (⟨"5432".toList, "db.internal".toList, "5432".toList,
        remoteHostDocumentName⟩ : PortForwardConfig).remoteHost ≠ loopbackName)) ∧
    ("host".toList ∈
      (buildSessionParams
        ⟨"5432".toList, "db.internal".toList, "5432".toList,
          remoteHostDocumentName⟩ "5432".toList).map Prod.fst ↔
      ((⟨"5432".toList, "db.internal".toList, "5432".toList,
        remoteHostDocumentName⟩ : PortForwardConfig).remoteHost ≠ localhostName ∧
       (⟨"5432".toList, "db.internal".toList, "5432".toList,
        remoteHostDocumentName⟩ : PortForwardConfig).remoteHost ≠ loopbackName)) := by
  have h := c10_remote_host_document_and_host_param
    "5432:db.internal:5432".toList "5432".toList
    ⟨"5432".toList, "db.internal".toList, "5432".toList, remoteHostDocumentName⟩
    (by rfl)
  exact ⟨h.1, h.2.2⟩
